import Mathlib

/-!
Shallow embedding of the TesseractFlow experiment engine
(`tesseract_flow/experiments/taguchi.py`, `experiments/analysis.py`,
`optimization/utility.py`, `optimization/pareto.py`,
`evaluation/metrics.py`, `core/config.py`) together with proofs about
the claims of the natural-language specification.

Conventions of the embedding:
* Python `float` values are modelled as `ℚ` (all the algorithms here are
  pure field arithmetic and comparisons, no rounding-sensitive code paths
  are in scope of the claims).
* Code that raises `ValueError`/`ValidationError` is modelled with
  `Except String`; the message strings follow the source.
* Pydantic semantics are modelled faithfully: a model *constructor*
  (`Model(...)` / `model_validate`) runs field validators and model
  validators (modelled as `mk...?` functions returning `Except`), while
  `model_copy(update=...)` performs a plain record update and runs **no**
  validation, and passing an already-constructed model instance to a
  field of that model type does not re-validate it
  (`revalidate_instances` defaults to `'never'`).
* Python `dict` values are modelled as association lists with
  Python's insertion-order/overwrite semantics (`dset`, `dlookup`).
* Fields that no claim touches (timestamps, metadata bags,
  `workflow_output`, reproducibility metadata) are omitted; they do not
  feed into any computation under scrutiny.
-/

namespace TesseractFlow

/-- Python `dict` assignment `d[k] = v`: update the entry in place if the
key is present, otherwise append, preserving insertion order. -/
def dset {κ β : Type} [DecidableEq κ] (d : List (κ × β)) (k : κ) (v : β) :
    List (κ × β) :=
  if (d.map Prod.fst).contains k then
    d.map (fun e => if e.1 = k then (k, v) else e)
  else
    d ++ [(k, v)]

/-- Python `dict` lookup `d.get(k)` (first matching key; keys are unique
in a real dict). -/
def dlookup {κ β : Type} [DecidableEq κ] : List (κ × β) → κ → Option β
  | [], _ => none
  | (k', v) :: rest, k => if k' = k then some v else dlookup rest k

/-- `True` iff the `Except` computation succeeded. -/
def isOkE {ε β : Type} : Except ε β → Bool
  | .ok _ => true
  | .error _ => false

/-- Python `str.strip()`: drop leading and trailing whitespace.
(Defined over the character list so that it evaluates on concrete
literals; `String.trim` is extensionally the same operation.) -/
def pyStrip (s : String) : String :=
  ⟨((s.data.dropWhile Char.isWhitespace).reverse.dropWhile
      Char.isWhitespace).reverse⟩

/-- Python `str.lower()` (ASCII case folding suffices for the axis
names used by the Pareto module). -/
def pyLower (s : String) : String :=
  ⟨s.data.map Char.toLower⟩

/-! ## `tesseract_flow/experiments/taguchi.py` -/

/-- The fixed standard Taguchi L8 orthogonal array
(`taguchi.L8_ARRAY`, an 8×7 matrix with entries in {1,2}). -/
def L8_ARRAY : List (List ℕ) :=
  [ [1, 1, 1, 1, 1, 1, 1],
    [1, 1, 1, 2, 2, 2, 2],
    [1, 2, 2, 1, 1, 2, 2],
    [1, 2, 2, 2, 2, 1, 1],
    [2, 1, 2, 1, 2, 1, 2],
    [2, 1, 2, 2, 1, 2, 1],
    [2, 2, 1, 1, 2, 2, 1],
    [2, 2, 1, 2, 1, 1, 2] ]

/-- `taguchi.generate_l8_array`: truncate the L8 array to the first
`num_variables` columns; reject counts outside `[4, 7]`
(`L8_ARRAY.shape[1] = 7`). -/
def generate_l8_array (num_variables : ℕ) : Except String (List (List ℕ)) :=
  if num_variables < 4 ∨ num_variables > 7 then
    .error "Taguchi L8 array requires between 4 and 7 variables."
  else
    .ok (L8_ARRAY.map (fun row => row.take num_variables))

/-- Number of the 8 rows of the L8 array carrying level `a` in column
`c1` and level `b` in column `c2`. -/
def levelPairCount (c1 c2 a b : ℕ) : ℕ :=
  (L8_ARRAY.filter (fun row => row.getD c1 0 == a && row.getD c2 0 == b)).length

/-! ## `tesseract_flow/optimization/utility.py` -/

/-- Utility weights (`core/types.py UtilityWeights`), with the source's
defaults. -/
structure UtilityWeights where
  quality : ℚ := 1
  cost : ℚ := 1 / 10
  time : ℚ := 1 / 20
deriving DecidableEq

/-- `UtilityFunction.compute`: weighted utility of (already normalized)
quality / cost / latency. -/
def UtilityFunction.compute (w : UtilityWeights)
    (quality cost latency : ℚ) : ℚ :=
  w.quality * quality - w.cost * cost - w.time * latency

/-- The min-max branch of `UtilityFunction.normalize_metrics`: empty
input yields `([], {min := 0, max := 0})`; an all-equal list yields all
zeros with true statistics; otherwise each value is scaled by
`(v - min) / (max - min)`.  `min`/`max` are the Python builtins,
i.e. left folds over the list. -/
def minMaxNormalize (values : List ℚ) : List ℚ × (ℚ × ℚ) :=
  match values with
  | [] => ([], (0, 0))
  | v :: rest =>
    let minimum := rest.foldl min v
    let maximum := rest.foldl max v
    if maximum = minimum then
      (values.map (fun _ => 0), (minimum, maximum))
    else
      (values.map (fun x => (x - minimum) / (maximum - minimum)),
       (minimum, maximum))

/-- `UtilityFunction.normalize_metrics(values, method)`: only the
`"min-max"` method is supported; the source's default argument for
`method` is `"min-max"`, so internal callers always take the `.ok`
branch. -/
def UtilityFunction.normalize_metrics (values : List ℚ)
    (method : String := "min-max") : Except String (List ℚ × (ℚ × ℚ)) :=
  if method ≠ "min-max" then
    .error "Unsupported normalization method"
  else
    .ok (minMaxNormalize values)

/-! ## `tesseract_flow/evaluation/metrics.py` -/

/-- `metrics.DimensionScore`: a score plus optional reasoning text. -/
structure DimensionScore where
  score : ℚ
  reasoning : Option String := none
deriving DecidableEq

/-- Validated construction of a `DimensionScore`: the `score` field
carries `ge=0.0, le=1.0` constraints, and the `reasoning` validator
strips whitespace, collapsing an all-whitespace string to `None`. -/
def mkDimensionScore? (score : ℚ) (reasoning : Option String := none) :
    Except String DimensionScore :=
  if score < 0 ∨ 1 < score then
    .error "score must be between 0 and 1"
  else
    .ok { score := score,
          reasoning := reasoning.bind fun value =>
            let stripped := pyStrip value
            if stripped = "" then none else some stripped }

/-- `metrics.QualityScore` (timestamp and metadata bag omitted: no
computation under scrutiny reads them). -/
structure QualityScore where
  dimension_scores : List (String × DimensionScore)
  overall_score : ℚ
  evaluator_model : String
deriving DecidableEq

/-- `statistics.fmean`: arithmetic mean. -/
def fmean (xs : List ℚ) : ℚ := xs.foldl (· + ·) 0 / (xs.length : ℚ)

/-- One step of the `dimension_scores` field validator's loop: strip the
key, reject an empty key, store into the normalized dict. -/
def normalizeDimensionStep (acc : List (String × DimensionScore))
    (p : String × DimensionScore) :
    Except String (List (String × DimensionScore)) :=
  if pyStrip p.1 = "" then
    .error "Dimension names must be non-empty strings."
  else
    .ok (dset acc (pyStrip p.1) p.2)

/-- Validated construction of a `QualityScore`, mirroring pydantic's
execution order: the `dimension_scores` field validator (non-empty map,
each key stripped and required non-empty, normalized into a fresh dict),
the `overall_score` field constraints (`ge=0.0, le=1.0`, checked on the
*passed-in* value before the model validator replaces it), the
`evaluator_model` validator (stripped, non-empty), and finally the
`_synchronize_overall` model validator, which overwrites `overall_score`
with the mean of the stored dimension scores. -/
def mkQualityScore? (dimension_scores : List (String × DimensionScore))
    (evaluator_model : String) (overall_score : ℚ := 0) :
    Except String QualityScore :=
  if dimension_scores.isEmpty then
    .error "At least one dimension score must be provided."
  else
    match dimension_scores.foldlM normalizeDimensionStep [] with
    | .error e => .error e
    | .ok normalized =>
      if overall_score < 0 ∨ 1 < overall_score then
        .error "overall_score must be between 0 and 1"
      else if pyStrip evaluator_model = "" then
        .error "Evaluator model identifier must be non-empty."
      else
        .ok { dimension_scores := normalized,
              overall_score := fmean (normalized.map fun p => p.2.score),
              evaluator_model := pyStrip evaluator_model }

/-! ## Core data model (`tesseract_flow/core/config.py`)

Configuration values are `Any` in Python; the embedding is polymorphic
over a value type `α` with decidable equality (a heterogeneous
experiment instantiates `α` with a sum type). -/

/-- `config.Variable`: a named factor with two levels. -/
structure Variable (α : Type) where
  name : String
  level_1 : α
  level_2 : α
deriving DecidableEq

/-- `config.TestConfiguration` (the `test_number ≥ 1` constraint holds
by construction in every run considered; context validation of
`config_values` is not needed by the claims). -/
structure TestConfiguration (α : Type) where
  test_number : ℕ
  config_values : List (String × α)
  workflow : String
deriving DecidableEq

/-- `config.TestResult` (fields `workflow_output`, `metadata` and
`timestamp` omitted: nothing under scrutiny reads them).  The source
validates `cost ≥ 0`, `latency ≥ 0` at construction and `QualityScore`
guarantees `overall_score ∈ [0,1]`; `TestResult.Valid` below captures
exactly these constructor-enforced facts. -/
structure TestResult (α : Type) where
  test_number : ℕ
  config : TestConfiguration α
  quality_score : QualityScore
  cost : ℚ
  latency : ℚ
  utility : ℚ := 0
deriving DecidableEq

/-- Constructor-enforced facts about a `TestResult` that the Pareto
engine relies on (`test_number ge=1`, `cost ge=0.0`, `latency ge=0.0`,
and the quality score's mean lying in `[0,1]`). -/
def TestResult.Valid {α : Type} (r : TestResult α) : Prop :=
  1 ≤ r.test_number ∧ 0 ≤ r.cost ∧ 0 ≤ r.latency ∧
    0 ≤ r.quality_score.overall_score ∧ r.quality_score.overall_score ≤ 1

/-- `TestResult.with_utility`: `model_copy(update={"utility": ...})` —
a plain field replacement, no validation. -/
def TestResult.with_utility {α : Type} (r : TestResult α) (utility : ℚ) :
    TestResult α :=
  { r with utility := utility }

/-! ## `core/config.py`: the experiment run state machine -/

/-- `core/types.py ExperimentStatus` (a string literal type in the
source). -/
inductive ExperimentStatus
  | PENDING
  | RUNNING
  | COMPLETED
  | FAILED
deriving DecidableEq

/-- `config.ExperimentConfig`, reduced to the fields the run state
machine reads (`variables` is a reserved word in Lean, hence `vars`;
`workflow_config`, `seed` and the YAML loading are out of scope). -/
structure ExperimentConfig (α : Type) where
  name : String
  workflow : String
  vars : List (Variable α)
  utility_weights : UtilityWeights
deriving DecidableEq

/-- `config.ExperimentRun` (timestamps as abstract `ℕ` ticks; the two
metadata bags and `baseline_config` omitted — no modelled method reads
them). -/
structure ExperimentRun (α : Type) where
  experiment_id : String
  config : ExperimentConfig α
  test_configurations : List (TestConfiguration α)
  results : List (TestResult α) := []
  status : ExperimentStatus := .PENDING
  started_at : Option ℕ := none
  completed_at : Option ℕ := none
  error : Option String := none
  baseline_test_number : ℕ := 1
  baseline_result : Option (TestResult α) := none
  baseline_quality : Option ℚ := none
  quality_improvement_pct : Option ℚ := none
deriving DecidableEq

/-- `sorted(results, key=lambda item: item.test_number)` — Python's
stable sort; `List.insertionSort` with a total preorder is stable, so
it computes the same list. -/
def tnLE {α : Type} (a b : TestResult α) : Prop :=
  a.test_number ≤ b.test_number

instance {α : Type} : DecidableRel (tnLE (α := α)) :=
  fun a b => Nat.decLe a.test_number b.test_number

instance {α : Type} : IsTotal (TestResult α) tnLE :=
  ⟨fun a b => Nat.le_total a.test_number b.test_number⟩

instance {α : Type} : IsTrans (TestResult α) tnLE :=
  ⟨fun _ _ _ h1 h2 => Nat.le_trans h1 h2⟩

/-- Strict test-number order (used to state uniqueness of the sorted
list). -/
def tnLT {α : Type} (a b : TestResult α) : Prop :=
  a.test_number < b.test_number

instance {α : Type} : IsAntisymm (TestResult α) tnLT :=
  ⟨fun a b h1 h2 => absurd (Nat.lt_trans h1 h2) (Nat.lt_irrefl _)⟩

def sortByTestNumber {α : Type} (rs : List (TestResult α)) :
    List (TestResult α) :=
  List.insertionSort tnLE rs

/-- A result with its `utility` field zeroed: two results with the same
`coreOf` image differ at most in the derived `utility` field, which
every recalculation pass overwrites. -/
def coreOf {α : Type} (r : TestResult α) : TestResult α :=
  r.with_utility 0

/-- `ExperimentRun._recalculate_utilities` (the returned metadata dict
is not modelled; `normalize_metrics` is invoked with its default
`"min-max"` method, i.e. `minMaxNormalize`). -/
def ExperimentRun.recalculate_utilities {α : Type} (run : ExperimentRun α)
    (results : List (TestResult α)) : List (TestResult α) :=
  let results_list := sortByTestNumber results
  if results_list.isEmpty then
    results_list
  else
    let normalized_costs := (minMaxNormalize (results_list.map fun r => r.cost)).1
    let normalized_latencies :=
      (minMaxNormalize (results_list.map fun r => r.latency)).1
    (results_list.zip (normalized_costs.zip normalized_latencies)).map fun p =>
      p.1.with_utility (UtilityFunction.compute run.config.utility_weights
        p.1.quality_score.overall_score p.2.1 p.2.2)

/-- `ExperimentRun._calculate_improvement`. -/
def calculate_improvement {α : Type} (results : List (TestResult α))
    (baseline_quality : Option ℚ) : Option ℚ :=
  match baseline_quality with
  | none => none
  | some bq =>
    if bq ≤ 0 then none
    else
      match results with
      | [] => none
      | r :: rest =>
        some (((rest.foldl (fun m x => max m x.quality_score.overall_score)
          r.quality_score.overall_score) - bq) / bq * 100)

/-- `ExperimentRun.record_result`: guard checks, append, full utility
recalculation, baseline refresh, improvement recomputation, and a
`model_copy` returning the new snapshot. -/
def ExperimentRun.record_result {α : Type} [DecidableEq α]
    (run : ExperimentRun α) (result : TestResult α) :
    Except String (ExperimentRun α) :=
  if run.status ≠ .RUNNING then
    .error "Results can only be recorded while experiment is RUNNING."
  else if run.results.any
      (fun existing => existing.test_number == result.test_number) then
    .error "Result for this test number has already been recorded."
  else if run.results.length ≥ run.test_configurations.length then
    .error "All test results have already been recorded."
  else
    let recalculated_results :=
      run.recalculate_utilities (run.results ++ [result])
    let baseline_result :=
      if run.baseline_result.isNone ∨
          result.test_number = run.baseline_test_number then
        recalculated_results.find?
          (fun item => item.test_number == run.baseline_test_number)
      else
        run.baseline_result
    let baseline_quality :=
      match baseline_result with
      | some b => some b.quality_score.overall_score
      | none => run.baseline_quality
    .ok { run with
          results := recalculated_results,
          baseline_result := baseline_result,
          baseline_quality := baseline_quality,
          quality_improvement_pct :=
            calculate_improvement recalculated_results baseline_quality }

/-- `ExperimentRun.mark_running` (the `started_at or datetime.now()`
default is the `now` tick). -/
def ExperimentRun.mark_running {α : Type} (run : ExperimentRun α)
    (started_at : Option ℕ := none) (now : ℕ := 0) :
    Except String (ExperimentRun α) :=
  if ¬ (run.status = .PENDING ∨ run.status = .FAILED) then
    .error "Experiment can only transition to RUNNING from PENDING or FAILED."
  else
    let timestamp := started_at.getD now
    .ok { run with
          status := .RUNNING,
          started_at := some timestamp,
          error := none }

/-- `ExperimentRun.mark_failed`. -/
def ExperimentRun.mark_failed {α : Type} (run : ExperimentRun α)
    (error : String) : Except String (ExperimentRun α) :=
  if run.status ≠ .RUNNING then
    .error "Failed state can only be set from RUNNING."
  else
    let stripped := pyStrip error
    if stripped = "" then
      .error "Error message must be non-empty."
    else
      .ok { run with status := .FAILED, error := some stripped }

/-- `ExperimentRun.mark_completed`. -/
def ExperimentRun.mark_completed {α : Type} [DecidableEq α]
    (run : ExperimentRun α) (completed_at : Option ℕ := none) (now : ℕ := 0) :
    Except String (ExperimentRun α) :=
  if run.status ≠ .RUNNING then
    .error "Experiment must be RUNNING before completion."
  else if run.results.length ≠ run.test_configurations.length then
    .error "Cannot complete experiment until all results are recorded."
  else
    let timestamp := completed_at.getD now
    let baseline_result :=
      match run.baseline_result with
      | some b => some b
      | none =>
        run.results.find?
          (fun item => item.test_number == run.baseline_test_number)
    let baseline_quality :=
      match baseline_result with
      | some b => some b.quality_score.overall_score
      | none => run.baseline_quality
    .ok { run with
          status := .COMPLETED,
          completed_at := some timestamp,
          baseline_result := baseline_result,
          baseline_quality := baseline_quality,
          quality_improvement_pct :=
            calculate_improvement run.results baseline_quality }

/-- Recording a list of results one by one (driver used to state the
order-invariance claim). -/
def recordAll {α : Type} [DecidableEq α] (run : ExperimentRun α) :
    List (TestResult α) → Except String (ExperimentRun α)
  | [] => .ok run
  | r :: rest =>
    match run.record_result r with
    | .error e => .error e
    | .ok run' => recordAll run' rest

/-- Modelled from the claim's words (C5): the percentage quality
improvement of the *best-utility* result over the baseline — to be
compared against what the code stores. -/
def claimImprovementBestUtility {α : Type} (results : List (TestResult α))
    (baseline_quality : Option ℚ) : Option ℚ :=
  match baseline_quality with
  | none => none
  | some bq =>
    if bq ≤ 0 then none
    else
      match results with
      | [] => none
      | r :: rest =>
        some ((((rest.foldl (fun m x => if m.utility < x.utility then x else m)
          r).quality_score.overall_score) - bq) / bq * 100)

/-! ## `tesseract_flow/optimization/pareto.py` -/

/-- `pareto._TOLERANCE = 1e-9`. -/
def TOLERANCE : ℚ := 1 / 1000000000

/-- `pareto.ParetoPoint`.  The declared field constraints
(`quality ∈ [0,1]`, `cost ≥ 0`, `latency ≥ 0`, `dominated_by ∈ [1,8]`)
and the `_validate_dominance` model validator are enforced **only** by
the validated constructor `mkParetoPoint?` below; `model_copy` updates
bypass them, exactly as pydantic does. -/
structure ParetoPoint (α : Type) where
  config : TestConfiguration α
  quality : ℚ
  cost : ℚ
  latency : ℚ
  utility : ℚ
  is_optimal : Bool := false
  dominated_by : Option ℕ := none
deriving DecidableEq

/-- `ParetoPoint.test_number` (a property reading the config). -/
def ParetoPoint.test_number {α : Type} (p : ParetoPoint α) : ℕ :=
  p.config.test_number

/-- Validated construction of a `ParetoPoint`: field constraints in
declaration order, then `_validate_dominance`. -/
def mkParetoPoint? {α : Type} (config : TestConfiguration α)
    (quality cost latency utility : ℚ) (is_optimal : Bool := false)
    (dominated_by : Option ℕ := none) : Except String (ParetoPoint α) :=
  if quality < 0 ∨ 1 < quality then
    .error "quality must be between 0 and 1"
  else if cost < 0 then
    .error "cost must be nonnegative"
  else if latency < 0 then
    .error "latency must be nonnegative"
  else
    match dominated_by with
    | some d =>
      if d < 1 ∨ 8 < d then
        .error "dominated_by must be between 1 and 8"
      else if is_optimal then
        .error "Pareto-optimal points cannot specify dominated_by."
      else if d = config.test_number then
        .error "dominated_by cannot reference the same test number."
      else
        .ok { config := config, quality := quality, cost := cost,
              latency := latency, utility := utility,
              is_optimal := is_optimal, dominated_by := dominated_by }
    | none =>
      .ok { config := config, quality := quality, cost := cost,
            latency := latency, utility := utility,
            is_optimal := is_optimal, dominated_by := dominated_by }

/-- `pareto.ParetoFrontier` (validation in `mkParetoFrontier?`). -/
structure ParetoFrontier (α : Type) where
  experiment_id : String
  points : List (ParetoPoint α)
  optimal_points : List (ParetoPoint α)
  x_axis : String := "cost"
  y_axis : String := "quality"
deriving DecidableEq

/-- `_validate_frontier`: non-empty points, at least one optimal test
number, every listed optimal point flagged optimal, and the optimal
test numbers a subset of all test numbers.  Note that nested
`ParetoPoint` instances are **not** re-validated
(`revalidate_instances` defaults to `'never'`). -/
def mkParetoFrontier? {α : Type} [DecidableEq α] (experiment_id : String)
    (points optimal_points : List (ParetoPoint α))
    (x_axis y_axis : String) : Except String (ParetoFrontier α) :=
  if points.isEmpty then
    .error "At least one Pareto point is required."
  else if optimal_points.isEmpty then
    .error "At least one Pareto-optimal point must be present."
  else if optimal_points.any (fun point => ! point.is_optimal) then
    .error "optimal_points must only contain optimal Pareto points."
  else if ¬ (optimal_points.all (fun p =>
      points.any (fun q => q.test_number == p.test_number))) then
    .error "optimal_points must be a subset of points."
  else
    .ok { experiment_id := experiment_id, points := points,
          optimal_points := optimal_points, x_axis := x_axis,
          y_axis := y_axis }

/-- `pareto._axis_value`.  The unreachable `ValueError` branch (axis
names are validated before any call) is modelled as 0. -/
def axis_value {α : Type} (point : ParetoPoint α) (axis : String) : ℚ :=
  if axis = "cost" then point.cost
  else if axis = "latency" then point.latency
  else if axis = "quality" then point.quality
  else if axis = "utility" then point.utility
  else 0

/-- The sort key `(x ascending, y descending)` as a total preorder:
Python's stable `sorted` coincides with stable insertion sort under
this relation. -/
def sortKeyLE {α : Type} (ax ay : String) (p q : ParetoPoint α) : Prop :=
  axis_value p ax < axis_value q ax ∨
    (axis_value p ax = axis_value q ax ∧ axis_value q ay ≤ axis_value p ay)

instance {α : Type} (ax ay : String) : DecidableRel (sortKeyLE (α := α) ax ay) :=
  fun p q => by unfold sortKeyLE; exact inferInstance

instance {α : Type} (ax ay : String) : IsTotal (ParetoPoint α) (sortKeyLE ax ay) :=
  ⟨fun p q => by
    unfold sortKeyLE
    rcases lt_trichotomy (axis_value p ax) (axis_value q ax) with h | h | h
    · exact Or.inl (Or.inl h)
    · rcases le_total (axis_value q ay) (axis_value p ay) with h' | h'
      · exact Or.inl (Or.inr ⟨h, h'⟩)
      · exact Or.inr (Or.inr ⟨h.symm, h'⟩)
    · exact Or.inr (Or.inl h)⟩

instance {α : Type} (ax ay : String) : IsTrans (ParetoPoint α) (sortKeyLE ax ay) :=
  ⟨fun p q r hpq hqr => by
    unfold sortKeyLE at *
    rcases hpq with h1 | ⟨h1, h1'⟩ <;> rcases hqr with h2 | ⟨h2, h2'⟩
    · exact Or.inl (h1.trans h2)
    · exact Or.inl (h2 ▸ h1)
    · exact Or.inl (h1 ▸ h2)
    · exact Or.inr ⟨h1.trans h2, h2'.trans h1'⟩⟩

/-- The optimal-point sweep of `ParetoFrontier.compute`: scan the
sorted points tracking the best y seen (`none` models the initial
`float("-inf")`, which every finite y exceeds); a point is optimal iff
its y exceeds the running best by more than the tolerance. -/
def sweepOptimal {α : Type} (ay : String) :
    List (ParetoPoint α) → Option ℚ → List ℕ
  | [], _ => []
  | p :: rest, none =>
    p.test_number :: sweepOptimal ay rest (some (axis_value p ay))
  | p :: rest, some best =>
    if best + TOLERANCE < axis_value p ay then
      p.test_number :: sweepOptimal ay rest (some (axis_value p ay))
    else
      sweepOptimal ay rest (some best)

/-- The tolerance-aware dominance test of `pareto._compute_dominance`:
candidate's x ≤ point's x and candidate's y ≥ point's y (within
tolerance), with at least one strict beyond tolerance. -/
def dominatesB {α : Type} (ax ay : String) (candidate point : ParetoPoint α) :
    Bool :=
  decide (axis_value candidate ax ≤ axis_value point ax + TOLERANCE) &&
  decide (axis_value point ay - TOLERANCE ≤ axis_value candidate ay) &&
  (decide (axis_value candidate ax < axis_value point ax - TOLERANCE) ||
   decide (axis_value point ay + TOLERANCE < axis_value candidate ay))

/-- `pareto._compute_dominance`: a dict mapping every test number to
`None`, then — for each point, scanning all points in order — the first
differently-numbered candidate that dominates it (`break` after the
first hit; no assignment when none dominates). -/
def compute_dominance {α : Type} [DecidableEq α] (ax ay : String)
    (points : List (ParetoPoint α)) : List (ℕ × Option ℕ) :=
  let init := points.foldl
    (fun d p =>
      if (d.map Prod.fst).contains p.test_number then d
      else d ++ [(p.test_number, (none : Option ℕ))])
    []
  points.foldl
    (fun d p =>
      match points.find? (fun c =>
          (c.test_number != p.test_number) && dominatesB ax ay c p) with
      | some c => dset d p.test_number (some c.test_number)
      | none => d)
    init

/-- The raw `ParetoPoint` the compute loop builds for a result (before
validation; `mkParetoPoint?` applied to a valid result returns exactly
this). -/
def pointOf {α : Type} (r : TestResult α) : ParetoPoint α :=
  { config := r.config, quality := r.quality_score.overall_score,
    cost := r.cost, latency := r.latency, utility := r.utility }

/-- The raw-point construction loop of `ParetoFrontier.compute`
(raises on the first invalid point). -/
def buildRawPoints {α : Type} (results : List (TestResult α)) :
    Except String (List (ParetoPoint α)) :=
  match results with
  | [] => .ok []
  | r :: rest =>
    match mkParetoPoint? r.config r.quality_score.overall_score r.cost
        r.latency r.utility with
    | .error e => .error e
    | .ok p =>
      match buildRawPoints rest with
      | .error e => .error e
      | .ok ps => .ok (p :: ps)

/-- The flag-update pass of `ParetoFrontier.compute` over the raw
points (each a `model_copy`, hence unvalidated). -/
def updatedPoints {α : Type} [DecidableEq α] (ax ay : String)
    (raw_points : List (ParetoPoint α)) : List (ParetoPoint α) :=
  let sorted_points := List.insertionSort (sortKeyLE ax ay) raw_points
  let optimal_numbers := sweepOptimal ay sorted_points none
  let dominance_map := compute_dominance ax ay sorted_points
  raw_points.map fun point =>
    { point with
      is_optimal := optimal_numbers.contains point.test_number,
      dominated_by := (dlookup dominance_map point.test_number).getD none }

/-- `ParetoFrontier.compute`.  The final `ValidationError → ValueError`
re-wrap keeps a failure a failure, so it is not modelled separately. -/
def ParetoFrontier.compute {α : Type} [DecidableEq α]
    (results : List (TestResult α)) (experiment_id : String)
    (x_axis : String := "cost") (y_axis : String := "quality") :
    Except String (ParetoFrontier α) :=
  if results.isEmpty then
    .error "At least one TestResult is required to compute the Pareto frontier."
  else
    let axis_x := pyLower (pyStrip x_axis)
    let axis_y := pyLower (pyStrip y_axis)
    if axis_x ≠ "cost" ∧ axis_x ≠ "latency" then
      .error "Unsupported x_axis."
    else if axis_y ≠ "quality" ∧ axis_y ≠ "utility" then
      .error "Unsupported y_axis."
    else
      match buildRawPoints results with
      | .error e => .error e
      | .ok raw_points =>
        let updated := updatedPoints axis_x axis_y raw_points
        mkParetoFrontier? experiment_id updated
          (updated.filter fun p => p.is_optimal) axis_x axis_y

/-! ## `tesseract_flow/experiments/analysis.py` -/

/-- `math.isclose(a, b, rel_tol, abs_tol)`. -/
def isclose (a b rel_tol abs_tol : ℚ) : Bool :=
  decide (|a - b| ≤ max (rel_tol * max |a| |b|) abs_tol)

/-- `analysis.Effect` (the source's field `variable` is a Lean keyword,
hence `variable_name`). -/
structure Effect where
  variable_name : String
  avg_level_1 : ℚ
  avg_level_2 : ℚ
  effect_size : ℚ
  sum_of_squares : ℚ
  contribution_pct : ℚ
deriving DecidableEq

/-- Validated construction of an `Effect`: field constraints
`sum_of_squares ≥ 0`, `contribution_pct ≥ 0`, and the `_validate_effect`
model validator requiring
`isclose(effect_size, avg_level_2 - avg_level_1, 1e-6, 1e-9)`. -/
def mkEffect? (variable_name : String)
    (avg_level_1 avg_level_2 effect_size sum_of_squares contribution_pct : ℚ) :
    Except String Effect :=
  if sum_of_squares < 0 then
    .error "sum_of_squares must be nonnegative"
  else if contribution_pct < 0 then
    .error "contribution_pct must be nonnegative"
  else if ¬ (isclose effect_size (avg_level_2 - avg_level_1)
      (1 / 1000000) (1 / 1000000000) = true) then
    .error "effect_size must equal avg_level_2 - avg_level_1"
  else
    .ok { variable_name := variable_name, avg_level_1 := avg_level_1,
          avg_level_2 := avg_level_2, effect_size := effect_size,
          sum_of_squares := sum_of_squares,
          contribution_pct := contribution_pct }

/-- `analysis.MainEffects`. -/
structure MainEffects where
  experiment_id : String
  effects : List (String × Effect)
  total_ss : ℚ
deriving DecidableEq

/-- Validated construction of `MainEffects`: field constraint
`total_ss ≥ 0` and the `_validate_contributions` model validator
(non-empty effects; contributions all zero when `total_ss = 0`, else
`isclose(total_pct, 100, rel_tol=1e-2, abs_tol=0.5)`). -/
def mkMainEffects? (experiment_id : String)
    (effects : List (String × Effect)) (total_ss : ℚ) :
    Except String MainEffects :=
  if total_ss < 0 then
    .error "total_ss must be nonnegative"
  else if effects.isEmpty then
    .error "effects must contain at least one entry"
  else
    let total_pct := (effects.map fun p => p.2.contribution_pct).foldl (· + ·) 0
    if total_ss = 0 then
      if total_pct ≠ 0 then
        .error "Contribution percentages must be zero when total sum of squares is zero."
      else
        .ok { experiment_id := experiment_id, effects := effects,
              total_ss := total_ss }
    else if ¬ (isclose total_pct 100 (1 / 100) (1 / 2) = true) then
      .error "Contribution percentages must sum to approximately 100%."
    else
      .ok { experiment_id := experiment_id, effects := effects,
            total_ss := total_ss }

/-- `analysis._utilities_for_level`: utilities of the results whose
config assigns `level_value` to `variable_name` (a missing key never
equals a level value). -/
def utilitiesForLevel {α : Type} [DecidableEq α] (results : List (TestResult α))
    (variable_name : String) (level_value : α) : List ℚ :=
  results.filterMap fun result =>
    if dlookup result.config.config_values variable_name = some level_value then
      some result.utility
    else
      none

/-- The body of `MainEffectsAnalyzer.compute`'s per-variable loop:
partition the utilities by level, reject an empty partition, build the
`Effect` (with `contribution_pct = 0` for now) and accumulate
`total_ss`.  `statistics.mean` is `fmean`. -/
def computeStep {α : Type} [DecidableEq α] (results : List (TestResult α))
    (acc : List (String × Effect) × ℚ) (v : Variable α) :
    Except String (List (String × Effect) × ℚ) :=
  let level_1_utilities := utilitiesForLevel results v.name v.level_1
  let level_2_utilities := utilitiesForLevel results v.name v.level_2
  if level_1_utilities.isEmpty ∨ level_2_utilities.isEmpty then
    .error "Results are missing level assignments for variable."
  else
    let avg_1 := fmean level_1_utilities
    let avg_2 := fmean level_2_utilities
    let effect_size := avg_2 - avg_1
    let sum_of_squares := effect_size ^ 2 * (level_1_utilities.length : ℚ)
    match mkEffect? v.name avg_1 avg_2 effect_size sum_of_squares 0 with
    | .error e => .error e
    | .ok eff => .ok (dset acc.1 v.name eff, acc.2 + sum_of_squares)

/-- `MainEffectsAnalyzer.compute`: exactly 8 results, at least one
variable, per-variable effects, then the contribution update pass
(`model_copy(update={"contribution_pct": ...})` — plain field update)
and the validated `MainEffects` construction. -/
def MainEffectsAnalyzer.compute {α : Type} [DecidableEq α]
    (results : List (TestResult α)) (vars : List (Variable α))
    (experiment_id : String) : Except String MainEffects :=
  if results.length ≠ 8 then
    .error "Main effects analysis requires exactly 8 results for L8 array."
  else if vars.isEmpty then
    .error "At least one variable is required for main effects analysis."
  else
    match vars.foldlM (computeStep results) ([], 0) with
    | .error e => .error e
    | .ok (effects, total_ss) =>
      let final_effects :=
        if total_ss > 0 then
          effects.map fun p =>
            (p.1, { p.2 with
              contribution_pct := p.2.sum_of_squares / total_ss * 100 })
        else
          effects.map fun p => (p.1, { p.2 with contribution_pct := 0 })
      mkMainEffects? experiment_id final_effects total_ss

/-- The `Effect` value `computeStep` builds for variable `v` (used to
state what the fold produces; `contribution_pct` is filled in later by
the update pass). -/
def effectOf {α : Type} [DecidableEq α] (results : List (TestResult α))
    (v : Variable α) : Effect :=
  { variable_name := v.name,
    avg_level_1 := fmean (utilitiesForLevel results v.name v.level_1),
    avg_level_2 := fmean (utilitiesForLevel results v.name v.level_2),
    effect_size := fmean (utilitiesForLevel results v.name v.level_2) -
      fmean (utilitiesForLevel results v.name v.level_1),
    sum_of_squares :=
      (fmean (utilitiesForLevel results v.name v.level_2) -
        fmean (utilitiesForLevel results v.name v.level_1)) ^ 2 *
        ((utilitiesForLevel results v.name v.level_1).length : ℚ),
    contribution_pct := 0 }

/-- A fixed unit quality score used by concrete test vectors. -/
def qsUnit : QualityScore :=
  { dimension_scores := [("q", { score := 1 })], overall_score := 1,
    evaluator_model := "m" }

/-- A result carrying level assignment `lvl` for variable `"v"` and
utility `u` (concrete test vector for the main-effects claims). -/
def lvlResult (tn : ℕ) (lvl u : ℚ) : TestResult ℚ :=
  { test_number := tn,
    config := { test_number := tn, config_values := [("v", lvl)],
                workflow := "w" },
    quality_score := qsUnit, cost := 0, latency := 0, utility := u }

/-- Eight results whose utilities are not constant yet balanced so that
every level mean is 1/2: the total sum of squares vanishes. -/
def zeroSSResults : List (TestResult ℚ) :=
  [lvlResult 1 0 0, lvlResult 2 0 1, lvlResult 3 0 1, lvlResult 4 0 0,
   lvlResult 5 1 1, lvlResult 6 1 0, lvlResult 7 1 0, lvlResult 8 1 1]

/-- Eight results with a clean 0-vs-1 utility split between levels. -/
def posSSResults : List (TestResult ℚ) :=
  [lvlResult 1 0 0, lvlResult 2 0 0, lvlResult 3 0 0, lvlResult 4 0 0,
   lvlResult 5 1 1, lvlResult 6 1 1, lvlResult 7 1 1, lvlResult 8 1 1]

/-! ### Concrete test vectors for the run state machine -/

/-- A trivial planned test configuration. -/
def simpleConfig (tn : ℕ) : TestConfiguration ℚ :=
  { test_number := tn, config_values := [], workflow := "w" }

def eightConfigs : List (TestConfiguration ℚ) :=
  [simpleConfig 1, simpleConfig 2, simpleConfig 3, simpleConfig 4,
   simpleConfig 5, simpleConfig 6, simpleConfig 7, simpleConfig 8]

def baseExpConfig : ExperimentConfig ℚ :=
  { name := "exp", workflow := "w",
    vars := [{ name := "v", level_1 := 0, level_2 := 1 }],
    utility_weights := {} }

/-- A freshly constructed (PENDING) run over 8 planned tests. -/
def pendingRun : ExperimentRun ℚ :=
  { experiment_id := "run-1", config := baseExpConfig,
    test_configurations := eightConfigs }

/-- The same run after `mark_running`. -/
def runningRun : ExperimentRun ℚ :=
  { pendingRun with status := .RUNNING, started_at := some 0 }

/-- A quality score whose single dimension carries score `q` (so the
overall score is `q`, as the validated constructor computes). -/
def qsOf (q : ℚ) : QualityScore :=
  { dimension_scores := [("q", { score := q })], overall_score := q,
    evaluator_model := "m" }

/-- Results for the improvement counterexample: the baseline (test 1)
has quality 1/2; test 2 has the best quality (9/10) but a high cost;
test 3 has the best utility (cost 0) with quality 17/20. -/
def c5res1 : TestResult ℚ :=
  { test_number := 1, config := simpleConfig 1, quality_score := qsOf (1/2),
    cost := 1, latency := 1, utility := 0 }

def c5res2 : TestResult ℚ :=
  { test_number := 2, config := simpleConfig 2, quality_score := qsOf (9/10),
    cost := 5, latency := 1, utility := 0 }

def c5res3 : TestResult ℚ :=
  { test_number := 3, config := simpleConfig 3, quality_score := qsOf (17/20),
    cost := 0, latency := 1, utility := 0 }

/-- `c5res1` after the first recalculation pass (single result: both
normalized metrics are 0, so its utility is its quality). -/
def c5res1' : TestResult ℚ := { c5res1 with utility := 1/2 }

/-- The run produced by recording `c5res1` into `runningRun`. -/
def c5run1 : ExperimentRun ℚ :=
  { runningRun with
    results := [c5res1'],
    baseline_result := some c5res1',
    baseline_quality := some (1/2),
    quality_improvement_pct := some 0 }

/-- A plain result used by the order-invariance witness. -/
def c3res (tn : ℕ) : TestResult ℚ :=
  { test_number := tn, config := simpleConfig tn, quality_score := qsUnit,
    cost := 0, latency := 0, utility := 0 }

def c3L1 : List (TestResult ℚ) :=
  [c3res 1, c3res 2, c3res 3, c3res 4, c3res 5, c3res 6, c3res 7, c3res 8]

/-- `c3L1` with its first two entries swapped. -/
def c3L2 : List (TestResult ℚ) :=
  [c3res 2, c3res 1, c3res 3, c3res 4, c3res 5, c3res 6, c3res 7, c3res 8]

/-- Concrete results for the `dominated_by > 8` scenario: a replicated
run's test 9 strictly dominates test 8 (cheaper and better), so test
8's recorded dominator is test number 9. -/
def c10res8 : TestResult ℚ :=
  { test_number := 8,
    config := { test_number := 8, config_values := [], workflow := "w" },
    quality_score := qsOf (1/10), cost := 2, latency := 0, utility := 0 }

def c10res9 : TestResult ℚ :=
  { test_number := 9,
    config := { test_number := 9, config_values := [], workflow := "w" },
    quality_score := qsOf (9/10), cost := 1, latency := 0, utility := 0 }

/-- Two identical measurements under distinct test numbers: a tie on
both axes inside the dominance tolerance. -/
def c2resA : TestResult ℚ :=
  { test_number := 1,
    config := { test_number := 1, config_values := [], workflow := "w" },
    quality_score := qsOf (1/2), cost := 1, latency := 0, utility := 0 }

def c2resB : TestResult ℚ :=
  { test_number := 2,
    config := { test_number := 2, config_values := [], workflow := "w" },
    quality_score := qsOf (1/2), cost := 1, latency := 0, utility := 0 }

/-- One step of `analysis.identify_optimal_config`'s loop over
`main_effects.effects.items()`: look the variable up, pick `level_1`
when `avg_level_1 >= avg_level_2`, else `level_2`. -/
def identifyStep {α : Type} [DecidableEq α]
    (variable_lookup : List (String × Variable α))
    (optimal : List (String × α)) (p : String × Effect) :
    Except String (List (String × α)) :=
  match dlookup variable_lookup p.1 with
  | none => .error "Variable not found in experiment definition."
  | some v =>
    .ok (dset optimal p.1
      (if p.2.avg_level_1 ≥ p.2.avg_level_2 then v.level_1 else v.level_2))

/-- `analysis.identify_optimal_config`. -/
def identify_optimal_config {α : Type} [DecidableEq α]
    (main_effects : MainEffects) (vars : List (Variable α)) :
    Except String (List (String × α)) :=
  let variable_lookup := vars.foldl (fun d v => dset d v.name v) []
  main_effects.effects.foldlM (identifyStep variable_lookup) []

end TesseractFlow

namespace TesseractFlow

/-! ### Dictionary lemmas -/

theorem dlookup_map_update_self {κ β : Type} [DecidableEq κ]
    (d : List (κ × β)) (k : κ) (v : β) (hmem : k ∈ d.map Prod.fst) :
    dlookup (d.map fun e => if e.1 = k then (k, v) else e) k = some v := by
  induction d with
  | nil => cases hmem
  | cons e rest ih =>
    simp only [List.map_cons]
    by_cases he : e.1 = k
    · rw [if_pos he]
      simp [dlookup]
    · rw [if_neg he]
      have : k ∈ rest.map Prod.fst := by
        rcases List.mem_map.mp hmem with ⟨x, hx, hfst⟩
        rcases List.mem_cons.mp hx with rfl | hx
        · exact absurd hfst he
        · exact List.mem_map.mpr ⟨x, hx, hfst⟩
      simp only [dlookup, if_neg he]
      exact ih this

theorem dlookup_map_update_ne {κ β : Type} [DecidableEq κ]
    (d : List (κ × β)) (k' k : κ) (v : β) (h : k' ≠ k) :
    dlookup (d.map fun e => if e.1 = k' then (k', v) else e) k = dlookup d k := by
  induction d with
  | nil => rfl
  | cons e rest ih =>
    simp only [List.map_cons]
    by_cases he : e.1 = k'
    · rw [if_pos he]
      have hek : ¬ (k' = k) := h
      have hek' : ¬ (e.1 = k) := by rw [he]; exact h
      simp only [dlookup, if_neg hek, if_neg hek']
      exact ih
    · rw [if_neg he]
      by_cases hk : e.1 = k
      · simp only [dlookup, if_pos hk]
      · simp only [dlookup, if_neg hk]
        exact ih

theorem dlookup_append {κ β : Type} [DecidableEq κ]
    (d₁ d₂ : List (κ × β)) (k : κ) :
    dlookup (d₁ ++ d₂) k =
      match dlookup d₁ k with
      | some v => some v
      | none => dlookup d₂ k := by
  induction d₁ with
  | nil => rfl
  | cons e rest ih =>
    by_cases he : e.1 = k <;> simp [dlookup, he, ih]

theorem dlookup_eq_none {κ β : Type} [DecidableEq κ]
    (d : List (κ × β)) (k : κ) (h : k ∉ d.map Prod.fst) :
    dlookup d k = none := by
  induction d with
  | nil => rfl
  | cons e rest ih =>
    have he : ¬ (e.1 = k) := fun hk => h (by simp [hk.symm])
    have : k ∉ rest.map Prod.fst := fun hk => h (by simp [hk])
    simp [dlookup, he, ih this]

theorem contains_iff_mem {κ : Type} [DecidableEq κ] (l : List κ) (k : κ) :
    l.contains k = true ↔ k ∈ l := by
  simp [List.contains, List.elem_iff]

theorem dlookup_dset_self {κ β : Type} [DecidableEq κ]
    (d : List (κ × β)) (k : κ) (v : β) :
    dlookup (dset d k v) k = some v := by
  unfold dset
  by_cases hmem : (d.map Prod.fst).contains k
  · rw [if_pos hmem]
    exact dlookup_map_update_self d k v ((contains_iff_mem _ _).mp hmem)
  · rw [if_neg hmem]
    rw [dlookup_append]
    have : k ∉ d.map Prod.fst := fun hk =>
      hmem ((contains_iff_mem _ _).mpr hk)
    rw [dlookup_eq_none d k this]
    simp [dlookup]

theorem dlookup_dset_ne {κ β : Type} [DecidableEq κ]
    (d : List (κ × β)) (k' k : κ) (v : β) (h : k' ≠ k) :
    dlookup (dset d k' v) k = dlookup d k := by
  unfold dset
  by_cases hmem : (d.map Prod.fst).contains k'
  · rw [if_pos hmem]
    exact dlookup_map_update_ne d k' k v h
  · rw [if_neg hmem, dlookup_append]
    have hk' : ¬ (k' = k) := h
    cases hd : dlookup d k with
    | some w => rfl
    | none => simp [dlookup, hk']

theorem mem_dset {κ β : Type} [DecidableEq κ]
    {d : List (κ × β)} {k : κ} {v : β} {e : κ × β} (he : e ∈ dset d k v) :
    e = (k, v) ∨ e ∈ d := by
  unfold dset at he
  by_cases hmem : (d.map Prod.fst).contains k
  · rw [if_pos hmem] at he
    obtain ⟨x, hx, hxe⟩ := List.mem_map.mp he
    by_cases hxk : x.1 = k
    · left; rw [← hxe]; simp [hxk]
    · right; rw [← hxe]; simpa [hxk] using hx
  · rw [if_neg hmem] at he
    rcases List.mem_append.mp he with h | h
    · exact Or.inr h
    · exact Or.inl (by simpa using h)

theorem dlookup_mem {κ β : Type} [DecidableEq κ]
    {d : List (κ × β)} {k : κ} {v : β} (h : dlookup d k = some v) :
    (k, v) ∈ d := by
  induction d with
  | nil => cases h
  | cons e rest ih =>
    obtain ⟨a, b⟩ := e
    by_cases he : a = k
    · subst he
      simp only [dlookup, if_pos rfl] at h
      cases h
      exact List.mem_cons_self _ _
    · simp only [dlookup, if_neg he] at h
      exact List.mem_cons.mpr (Or.inr (ih h))

/-! ### Facts about Python's `min`/`max` builtins (left folds) -/

theorem foldl_min_le_init (t : List ℚ) (v : ℚ) : t.foldl min v ≤ v := by
  induction t generalizing v with
  | nil => exact le_rfl
  | cons a t ih => exact (ih (min v a)).trans (min_le_left _ _)

theorem foldl_min_le_mem {t : List ℚ} {v x : ℚ} (hx : x ∈ t) :
    t.foldl min v ≤ x := by
  induction t generalizing v with
  | nil => cases hx
  | cons h rest ih =>
    rcases List.mem_cons.mp hx with rfl | hx
    · exact (foldl_min_le_init rest (min v x)).trans (min_le_right _ _)
    · exact ih hx

theorem init_le_foldl_max (t : List ℚ) (v : ℚ) : v ≤ t.foldl max v := by
  induction t generalizing v with
  | nil => exact le_rfl
  | cons a t ih => exact (le_max_left _ _).trans (ih (max v a))

theorem le_foldl_max_mem {t : List ℚ} {v x : ℚ} (hx : x ∈ t) :
    x ≤ t.foldl max v := by
  induction t generalizing v with
  | nil => cases hx
  | cons h rest ih =>
    rcases List.mem_cons.mp hx with rfl | hx
    · exact (le_max_right _ _).trans (init_le_foldl_max rest (max v x))
    · exact ih hx

/-! ## Claim C9 -/

/-- **C9.** `normalize_metrics` with the min-max method maps a non-empty
list into `[0,1]` via `(v - min) / (max - min)`, position by position;
when all values are equal it returns all zeros while still reporting the
true `{min, max}` statistics; and any method other than `"min-max"` is
an error.  (`values.foldl`-style `mn`/`mx` below are exactly Python's
`min(values)` / `max(values)`.) -/
theorem normalize_metrics_spec :
    ∀ (values : List ℚ) (method : String),
      (method ≠ "min-max" →
        UtilityFunction.normalize_metrics values method =
          .error "Unsupported normalization method") ∧
      (∀ v rest, values = v :: rest →
        ∃ normed : List ℚ,
          UtilityFunction.normalize_metrics values "min-max" =
            .ok (normed, (rest.foldl min v, rest.foldl max v)) ∧
          normed.length = values.length ∧
          (∀ x ∈ normed, 0 ≤ x ∧ x ≤ 1) ∧
          ((rest.foldl max v = rest.foldl min v →
              ∀ x ∈ normed, x = 0) ∧
           (rest.foldl max v ≠ rest.foldl min v →
              ∀ i : ℕ, ∀ hi : i < values.length,
                normed.getD i 0 =
                  (values.getD i 0 - rest.foldl min v) /
                    (rest.foldl max v - rest.foldl min v)))) := by
  intro values method
  constructor
  · intro hm
    simp only [UtilityFunction.normalize_metrics, if_pos hm]
  · intro v rest hv
    subst hv
    have hmem : ∀ x ∈ v :: rest, rest.foldl min v ≤ x ∧ x ≤ rest.foldl max v := by
      intro x hx
      rcases List.mem_cons.mp hx with rfl | hx
      · exact ⟨foldl_min_le_init _ _, init_le_foldl_max _ _⟩
      · exact ⟨foldl_min_le_mem hx, le_foldl_max_mem hx⟩
    have hmnmx : rest.foldl min v ≤ rest.foldl max v :=
      (hmem v (by simp)).1.trans (hmem v (by simp)).2
    by_cases heq : rest.foldl max v = rest.foldl min v
    · refine ⟨(v :: rest).map (fun _ => 0), ?_, by simp, by simp, ?_, ?_⟩
      · simp only [UtilityFunction.normalize_metrics, minMaxNormalize, if_pos heq]
        rw [if_neg (fun h => h rfl)]
      · intro _ x hx
        obtain ⟨y, -, h⟩ := List.mem_map.mp hx
        exact h.symm
      · intro h; exact absurd heq h
    · have hpos : (0 : ℚ) < rest.foldl max v - rest.foldl min v :=
        sub_pos.mpr (lt_of_le_of_ne hmnmx (Ne.symm heq))
      refine ⟨(v :: rest).map
          (fun x => (x - rest.foldl min v) / (rest.foldl max v - rest.foldl min v)),
        ?_, by simp, ?_, ?_, ?_⟩
      · simp only [UtilityFunction.normalize_metrics, minMaxNormalize, if_neg heq]
        rw [if_neg (fun h => h rfl)]
      · intro x hx
        obtain ⟨y, hy, rfl⟩ := List.mem_map.mp hx
        obtain ⟨h1, h2⟩ := hmem y hy
        exact ⟨div_nonneg (sub_nonneg.mpr h1) hpos.le,
          (div_le_one hpos).mpr (by linarith)⟩
      · intro h; exact absurd h heq
      · intro _ i hi
        rw [List.getD_eq_getElem?_getD, List.getD_eq_getElem?_getD,
          List.getElem?_map, List.getElem?_eq_getElem hi]
        rfl

/-- Witness for C9: the concrete list `[1, 3]` is scaled to `[0, 1]`
with statistics `{min := 1, max := 3}`, and the method `"mean"` is
rejected. -/
theorem normalize_metrics_spec_witness :
    UtilityFunction.normalize_metrics [(1 : ℚ), 3] "mean" =
      .error "Unsupported normalization method" ∧
    ∃ normed : List ℚ,
      UtilityFunction.normalize_metrics [(1 : ℚ), 3] "min-max" =
        .ok (normed, ([(3 : ℚ)].foldl min 1, [(3 : ℚ)].foldl max 1)) ∧
      normed.length = ([(1 : ℚ), 3]).length ∧
      (∀ x ∈ normed, 0 ≤ x ∧ x ≤ 1) ∧
      (([(3 : ℚ)].foldl max 1 = [(3 : ℚ)].foldl min 1 →
          ∀ x ∈ normed, x = 0) ∧
       ([(3 : ℚ)].foldl max 1 ≠ [(3 : ℚ)].foldl min 1 →
          ∀ i : ℕ, ∀ hi : i < ([(1 : ℚ), 3]).length,
            normed.getD i 0 =
              (([(1 : ℚ), 3]).getD i 0 - [(3 : ℚ)].foldl min 1) /
                ([(3 : ℚ)].foldl max 1 - [(3 : ℚ)].foldl min 1))) :=
  ⟨(normalize_metrics_spec [(1 : ℚ), 3] "mean").1 (by decide),
   (normalize_metrics_spec [(1 : ℚ), 3] "min-max").2 1 [3] rfl⟩

/-! ## Claim C1 -/

theorem foldl_dset_mem {α : Type} [DecidableEq α] :
    ∀ (vs : List (Variable α)) (acc : List (String × Variable α))
      (e : String × Variable α),
      e ∈ vs.foldl (fun d v => dset d v.name v) acc →
      e ∈ acc ∨ ∃ v ∈ vs, e = (v.name, v) := by
  intro vs
  induction vs with
  | nil => exact fun acc e he => Or.inl he
  | cons v rest ih =>
    intro acc e he
    rcases ih (dset acc v.name v) e he with h | ⟨u, hu, rfl⟩
    · rcases mem_dset h with rfl | h
      · exact Or.inr ⟨v, by simp, rfl⟩
      · exact Or.inl h
    · exact Or.inr ⟨u, List.mem_cons.mpr (Or.inr hu), rfl⟩

theorem buildLookup_sound {α : Type} [DecidableEq α] (vs : List (Variable α))
    (k : String) (v : Variable α)
    (h : dlookup (vs.foldl (fun d u => dset d u.name u) []) k = some v) :
    v ∈ vs ∧ v.name = k := by
  rcases foldl_dset_mem vs [] (k, v) (dlookup_mem h) with h' | ⟨u, hu, he⟩
  · cases h'
  · obtain ⟨h1, h2⟩ := Prod.mk.injEq .. ▸ he
    exact ⟨h2 ▸ hu, h2 ▸ h1.symm⟩

theorem identify_fold_frame {α : Type} [DecidableEq α]
    (vl : List (String × Variable α)) :
    ∀ (effects : List (String × Effect)) (acc out : List (String × α)),
      List.foldlM (identifyStep vl) acc effects = .ok out →
      ∀ k, k ∉ effects.map Prod.fst → dlookup out k = dlookup acc k := by
  intro effects
  induction effects with
  | nil =>
    intro acc out h k _
    cases h
    rfl
  | cons p rest ih =>
    intro acc out h k hk
    simp only [List.foldlM] at h
    cases hstep : identifyStep vl acc p with
    | error e => rw [hstep] at h; cases h
    | ok acc' =>
      rw [hstep] at h
      have hk1 : k ≠ p.1 := fun hke => hk (by simp [hke])
      have hk2 : k ∉ rest.map Prod.fst := fun hke => hk (by simp [hke])
      rw [ih acc' out h k hk2]
      unfold identifyStep at hstep
      cases hvl : dlookup vl p.1 with
      | none => rw [hvl] at hstep; cases hstep
      | some v =>
        rw [hvl] at hstep
        cases hstep
        exact dlookup_dset_ne _ _ _ _ (Ne.symm hk1)

theorem identify_fold_spec {α : Type} [DecidableEq α]
    (vl : List (String × Variable α)) :
    ∀ (effects : List (String × Effect)) (acc out : List (String × α)),
      (effects.map Prod.fst).Nodup →
      List.foldlM (identifyStep vl) acc effects = .ok out →
      ∀ name eff, (name, eff) ∈ effects →
        ∃ v : Variable α, dlookup vl name = some v ∧
          dlookup out name =
            some (if eff.avg_level_1 ≥ eff.avg_level_2 then v.level_1
                  else v.level_2) := by
  intro effects
  induction effects with
  | nil => intro acc out _ _ name eff hmem; cases hmem
  | cons p rest ih =>
    intro acc out hnodup h name eff hmem
    simp only [List.foldlM] at h
    cases hstep : identifyStep vl acc p with
    | error e => rw [hstep] at h; cases h
    | ok acc' =>
      rw [hstep] at h
      simp only [Bind.bind, Except.bind] at h
      unfold identifyStep at hstep
      cases hvl : dlookup vl p.1 with
      | none => rw [hvl] at hstep; cases hstep
      | some v =>
        rw [hvl] at hstep
        simp only [Except.ok.injEq] at hstep
        have hnodup' : (p.1 :: rest.map Prod.fst).Nodup := by
          rw [List.map_cons] at hnodup; exact hnodup
        have hnd := List.nodup_cons.mp hnodup'
        rcases List.mem_cons.mp hmem with he | hmem'
        · have hp1 : p.1 = name := by rw [← he]
          have hp2 : p.2 = eff := by rw [← he]
          have hnotin : name ∉ rest.map Prod.fst := hp1 ▸ hnd.1
          have hframe := identify_fold_frame vl rest acc' out h name hnotin
          refine ⟨v, hp1 ▸ hvl, ?_⟩
          rw [hframe, ← hstep, hp1, hp2]
          exact dlookup_dset_self _ _ _
        · exact ih acc' out hnd.2 h name eff hmem'

/-- **C1 (amended).** `identify_optimal_config` picks, for each
variable, `level_1` when that variable's mean utility at level 1 is
greater than or equal to its mean utility at level 2, and `level_2`
otherwise; on an exact tie the recommended value is `level_1` (not
`level_2` as claimed). -/
theorem identify_optimal_config_spec {α : Type} [DecidableEq α]
    (me : MainEffects) (vars : List (Variable α)) (out : List (String × α))
    (hnodup : (me.effects.map Prod.fst).Nodup)
    (hok : identify_optimal_config me vars = .ok out) :
    ∀ name eff, (name, eff) ∈ me.effects →
      ∃ v : Variable α, v ∈ vars ∧ v.name = name ∧
        dlookup out name =
          some (if eff.avg_level_1 ≥ eff.avg_level_2 then v.level_1
                else v.level_2) := by
  intro name eff hmem
  obtain ⟨v, hvl, hout⟩ :=
    identify_fold_spec _ me.effects [] out hnodup hok name eff hmem
  obtain ⟨hvmem, hvname⟩ := buildLookup_sound vars name v hvl
  exact ⟨v, hvmem, hvname, hout⟩

/-- **C1 (counterexample).** On an exact tie
(`avg_level_1 = avg_level_2 = 1/2`), `identify_optimal_config`
recommends `level_1` (`"level-one"`), not `level_2` — contradicting the
claim that ties favor `level_2`.  The `Effect` and `MainEffects` values
pass their validated constructors, so the input is a legitimate
analysis result. -/
theorem identify_optimal_config_tie_counterexample :
    mkEffect? "v" (1/2) (1/2) 0 0 0 = .ok
      { variable_name := "v", avg_level_1 := 1/2, avg_level_2 := 1/2,
        effect_size := 0, sum_of_squares := 0, contribution_pct := 0 } ∧
    mkMainEffects? "exp"
      [("v", { variable_name := "v", avg_level_1 := 1/2, avg_level_2 := 1/2,
               effect_size := 0, sum_of_squares := 0, contribution_pct := 0 })]
      0 =
      .ok { experiment_id := "exp",
            effects := [("v",
              { variable_name := "v", avg_level_1 := 1/2, avg_level_2 := 1/2,
                effect_size := 0, sum_of_squares := 0,
                contribution_pct := 0 })],
            total_ss := 0 } ∧
    identify_optimal_config
      { experiment_id := "exp",
        effects := [("v",
          { variable_name := "v", avg_level_1 := 1/2, avg_level_2 := 1/2,
            effect_size := 0, sum_of_squares := 0, contribution_pct := 0 })],
        total_ss := 0 }
      [({ name := "v", level_1 := "level-one", level_2 := "level-two" } :
        Variable String)] =
      .ok [("v", "level-one")] ∧
    ("level-one" : String) ≠ "level-two" := by
  refine ⟨?_, ?_, ?_, by decide⟩
  · simp only [mkEffect?, isclose, decide_eq_true_eq]
    norm_num
  · simp only [mkMainEffects?, isclose, decide_eq_true_eq]
    norm_num
  · simp only [identify_optimal_config, List.foldl, List.foldlM, identifyStep,
      dset, dlookup, List.map, List.contains, List.elem]
    norm_num

/-- Witness for C1 (amended) at a concrete input: with
`avg_level_1 = 0 < 1 = avg_level_2` the recommendation is `level_2`. -/
theorem identify_optimal_config_spec_witness :
    ∃ v : Variable String,
      v ∈ [({ name := "v", level_1 := "A", level_2 := "B" } : Variable String)] ∧
      v.name = "v" ∧
      dlookup [("v", "B")] "v" =
        some (if (({ variable_name := "v", avg_level_1 := 0, avg_level_2 := 1,
                     effect_size := 1, sum_of_squares := 0,
                     contribution_pct := 0 } : Effect)).avg_level_1 ≥
                (({ variable_name := "v", avg_level_1 := 0, avg_level_2 := 1,
                    effect_size := 1, sum_of_squares := 0,
                    contribution_pct := 0 } : Effect)).avg_level_2
              then v.level_1 else v.level_2) := by
  have hok : identify_optimal_config
      { experiment_id := "exp",
        effects := [("v",
          { variable_name := "v", avg_level_1 := 0, avg_level_2 := 1,
            effect_size := 1, sum_of_squares := 0, contribution_pct := 0 })],
        total_ss := 0 }
      [({ name := "v", level_1 := "A", level_2 := "B" } : Variable String)] =
      .ok [("v", "B")] := by
    simp only [identify_optimal_config, List.foldl, List.foldlM, identifyStep,
      dset, dlookup, List.map, List.contains, List.elem]
    norm_num
  exact identify_optimal_config_spec
    { experiment_id := "exp",
      effects := [("v",
        { variable_name := "v", avg_level_1 := 0, avg_level_2 := 1,
          effect_size := 1, sum_of_squares := 0, contribution_pct := 0 })],
      total_ss := 0 }
    [({ name := "v", level_1 := "A", level_2 := "B" } : Variable String)]
    [("v", "B")] (by simp) hok "v"
    { variable_name := "v", avg_level_1 := 0, avg_level_2 := 1,
      effect_size := 1, sum_of_squares := 0, contribution_pct := 0 }
    (by simp)

/-! ## Claim C8 -/

theorem dset_append_of_not_mem {κ β : Type} [DecidableEq κ]
    {d : List (κ × β)} {k : κ} (v : β) (h : k ∉ d.map Prod.fst) :
    dset d k v = d ++ [(k, v)] := by
  unfold dset
  rw [if_neg (fun hc => h ((contains_iff_mem _ _).mp hc))]

theorem mkEffect?_self_ok (name : String) (a1 a2 n : ℚ) (hn : 0 ≤ n) :
    mkEffect? name a1 a2 (a2 - a1) ((a2 - a1) ^ 2 * n) 0 =
      .ok { variable_name := name, avg_level_1 := a1, avg_level_2 := a2,
            effect_size := a2 - a1, sum_of_squares := (a2 - a1) ^ 2 * n,
            contribution_pct := 0 } := by
  unfold mkEffect?
  rw [if_neg (not_lt.mpr (mul_nonneg (sq_nonneg _) hn)),
    if_neg (lt_irrefl (0 : ℚ)), if_neg]
  simp only [isclose, decide_eq_true_eq, not_not, sub_self, abs_zero]
  exact le_max_of_le_right (by norm_num)

theorem computeStep_eq {α : Type} [DecidableEq α]
    (results : List (TestResult α)) (acc : List (String × Effect) × ℚ)
    (v : Variable α) :
    computeStep results acc v =
      if utilitiesForLevel results v.name v.level_1 = [] ∨
         utilitiesForLevel results v.name v.level_2 = [] then
        .error "Results are missing level assignments for variable."
      else
        .ok (dset acc.1 v.name (effectOf results v),
             acc.2 + (effectOf results v).sum_of_squares) := by
  unfold computeStep
  simp only [List.isEmpty_iff]
  by_cases h : utilitiesForLevel results v.name v.level_1 = [] ∨
      utilitiesForLevel results v.name v.level_2 = []
  · rw [if_pos h, if_pos h]
  · rw [if_neg h, if_neg h]
    rw [mkEffect?_self_ok v.name _ _ _ (Nat.cast_nonneg _)]
    rfl

theorem computeFold_mem {α : Type} [DecidableEq α]
    (results : List (TestResult α)) :
    ∀ (vs : List (Variable α)) (acc : List (String × Effect) × ℚ)
      (out : List (String × Effect) × ℚ),
      List.foldlM (computeStep results) acc vs = .ok out →
      ∀ e ∈ out.1, e ∈ acc.1 ∨ ∃ v ∈ vs, e = (v.name, effectOf results v) := by
  intro vs
  induction vs with
  | nil =>
    intro acc out h e he
    cases h
    exact Or.inl he
  | cons v rest ih =>
    intro acc out h e he
    simp only [List.foldlM, computeStep_eq] at h
    by_cases hemp : utilitiesForLevel results v.name v.level_1 = [] ∨
        utilitiesForLevel results v.name v.level_2 = []
    · rw [if_pos hemp] at h
      cases h
    · rw [if_neg hemp] at h
      simp only [Bind.bind, Except.bind] at h
      rcases ih _ out h e he with h' | ⟨u, hu, he'⟩
      · rcases mem_dset h' with rfl | h''
        · exact Or.inr ⟨v, by simp, rfl⟩
        · exact Or.inl h''
      · exact Or.inr ⟨u, List.mem_cons.mpr (Or.inr hu), he'⟩

theorem computeFold_allNonempty {α : Type} [DecidableEq α]
    (results : List (TestResult α)) :
    ∀ (vs : List (Variable α)) (acc out : List (String × Effect) × ℚ),
      List.foldlM (computeStep results) acc vs = .ok out →
      ∀ v ∈ vs, utilitiesForLevel results v.name v.level_1 ≠ [] ∧
                utilitiesForLevel results v.name v.level_2 ≠ [] := by
  intro vs
  induction vs with
  | nil => intro acc out _ v hv; cases hv
  | cons v rest ih =>
    intro acc out h u hu
    simp only [List.foldlM, computeStep_eq] at h
    by_cases hemp : utilitiesForLevel results v.name v.level_1 = [] ∨
        utilitiesForLevel results v.name v.level_2 = []
    · rw [if_pos hemp] at h
      cases h
    · rw [if_neg hemp] at h
      simp only [Bind.bind, Except.bind] at h
      rcases List.mem_cons.mp hu with rfl | hu'
      · exact ⟨fun h1 => hemp (Or.inl h1), fun h2 => hemp (Or.inr h2)⟩
      · exact ih _ out h u hu'

theorem computeFold_nodup {α : Type} [DecidableEq α]
    (results : List (TestResult α)) :
    ∀ (vs : List (Variable α)) (acc out : List (String × Effect) × ℚ),
      (vs.map Variable.name).Nodup →
      (∀ v ∈ vs, v.name ∉ acc.1.map Prod.fst) →
      List.foldlM (computeStep results) acc vs = .ok out →
      out.1 = acc.1 ++ vs.map (fun v => (v.name, effectOf results v)) ∧
      out.2 = acc.2 + (vs.map fun v => (effectOf results v).sum_of_squares).sum := by
  intro vs
  induction vs with
  | nil =>
    intro acc out _ _ h
    cases h
    simp
  | cons v rest ih =>
    intro acc out hnodup hdisj h
    simp only [List.foldlM, computeStep_eq] at h
    by_cases hemp : utilitiesForLevel results v.name v.level_1 = [] ∨
        utilitiesForLevel results v.name v.level_2 = []
    · rw [if_pos hemp] at h
      cases h
    · rw [if_neg hemp] at h
      simp only [Bind.bind, Except.bind] at h
      have hvnot : v.name ∉ acc.1.map Prod.fst := hdisj v (by simp)
      have hnodup' : (v.name :: rest.map Variable.name).Nodup := by
        rw [List.map_cons] at hnodup; exact hnodup
      have hnd := List.nodup_cons.mp hnodup'
      have hdset : dset acc.1 v.name (effectOf results v) =
          acc.1 ++ [(v.name, effectOf results v)] :=
        dset_append_of_not_mem _ hvnot
      have hdisj' : ∀ u ∈ rest,
          u.name ∉ (dset acc.1 v.name (effectOf results v)).map Prod.fst := by
        intro u hu hmem
        rw [hdset, List.map_append] at hmem
        rcases List.mem_append.mp hmem with hm | hm
        · exact hdisj u (List.mem_cons.mpr (Or.inr hu)) hm
        · have : u.name = v.name := by simpa using hm
          exact hnd.1 (this ▸ List.mem_map.mpr ⟨u, hu, rfl⟩)
      obtain ⟨h1, h2⟩ := ih _ out hnd.2 hdisj' h
      constructor
      · rw [h1, hdset, List.map_cons, List.append_assoc]
        rfl
      · rw [h2, List.map_cons, List.sum_cons]
        ring

theorem mkMainEffects?_ok {eid : String} {f : List (String × Effect)}
    {t : ℚ} {me : MainEffects} (h : mkMainEffects? eid f t = .ok me) :
    me = { experiment_id := eid, effects := f, total_ss := t } := by
  unfold mkMainEffects? at h
  by_cases h1 : t < 0
  · rw [if_pos h1] at h; cases h
  · rw [if_neg h1] at h
    by_cases h2 : f.isEmpty
    · rw [if_pos h2] at h; cases h
    · rw [if_neg h2] at h
      by_cases h3 : t = 0
      · rw [if_pos h3] at h
        by_cases h4 : (f.map fun p => p.2.contribution_pct).foldl (· + ·) 0 ≠ 0
        · rw [if_pos h4] at h; cases h
        · rw [if_neg h4] at h; cases h; rfl
      · rw [if_neg h3] at h
        by_cases h5 : ¬ (isclose ((f.map fun p => p.2.contribution_pct).foldl
            (· + ·) 0) 100 (1 / 100) (1 / 2) = true)
        · rw [if_pos h5] at h; cases h
        · rw [if_neg h5] at h; cases h; rfl

theorem compute_ok_inversion {α : Type} [DecidableEq α]
    {results : List (TestResult α)} {vs : List (Variable α)} {eid : String}
    {me : MainEffects}
    (hok : MainEffectsAnalyzer.compute results vs eid = .ok me) :
    results.length = 8 ∧ ¬ vs.isEmpty ∧
    ∃ effects : List (String × Effect), ∃ total : ℚ,
      List.foldlM (computeStep results) ([], 0) vs = .ok (effects, total) ∧
      me.experiment_id = eid ∧ me.total_ss = total ∧
      me.effects = (if total > 0 then
          effects.map fun p =>
            (p.1, { p.2 with
              contribution_pct := p.2.sum_of_squares / total * 100 })
        else
          effects.map fun p => (p.1, { p.2 with contribution_pct := 0 })) := by
  unfold MainEffectsAnalyzer.compute at hok
  by_cases h1 : results.length ≠ 8
  · rw [if_pos h1] at hok; cases hok
  · rw [if_neg h1] at hok
    by_cases h2 : vs.isEmpty
    · rw [if_pos h2] at hok; cases hok
    · rw [if_neg h2] at hok
      refine ⟨not_not.mp h1, h2, ?_⟩
      cases hfold : List.foldlM (computeStep results) ([], 0) vs with
      | error e => rw [hfold] at hok; cases hok
      | ok p =>
        obtain ⟨effects, total⟩ := p
        rw [hfold] at hok
        have := mkMainEffects?_ok hok
        exact ⟨effects, total, rfl, by rw [this], by rw [this], by rw [this]⟩

theorem pct_sum_eq_100 {α : Type} [DecidableEq α]
    (results : List (TestResult α)) (total : ℚ) (vs : List (Variable α))
    (htot : (vs.map fun v => (effectOf results v).sum_of_squares).sum = total)
    (hne : total ≠ 0) :
    ((((vs.map fun v => (v.name, effectOf results v))).map fun p =>
        (p.1, { p.2 with
          contribution_pct := p.2.sum_of_squares / total * 100 })).map
      fun p => p.2.contribution_pct).sum = 100 := by
  have hsum : ∀ l : List (Variable α),
      ((((l.map fun v => (v.name, effectOf results v))).map fun p =>
          (p.1, { p.2 with
            contribution_pct := p.2.sum_of_squares / total * 100 })).map
        fun p => p.2.contribution_pct).sum =
      (l.map fun v => (effectOf results v).sum_of_squares).sum / total * 100 := by
    intro l
    induction l with
    | nil => simp
    | cons v l ih =>
      simp only [List.map_cons, List.sum_cons, ih]
      ring
  rw [hsum, htot, div_self hne, one_mul]

/-- **C8 (amended).** When `MainEffectsAnalyzer.compute` succeeds,
exactly 8 results were supplied, at least one variable was defined and
every variable's two level partitions are non-empty (i.e. it errors
whenever any of these fail); each effect's `sum_of_squares` equals
`effect_size² × |level_1 partition|`; for distinct variable names the
contribution percentages sum to exactly 100 whenever the total sum of
squares is positive (hence within the claimed 0.5 tolerance) — but the
hypothesis must be a positive total sum of squares, not merely
non-constant utility — and all contributions are 0 when the total sum
of squares is 0. -/
theorem main_effects_compute_spec {α : Type} [DecidableEq α]
    (results : List (TestResult α)) (vs : List (Variable α)) (eid : String)
    (me : MainEffects)
    (hok : MainEffectsAnalyzer.compute results vs eid = .ok me) :
    (results.length = 8 ∧ vs ≠ [] ∧
      ∀ v ∈ vs, utilitiesForLevel results v.name v.level_1 ≠ [] ∧
                utilitiesForLevel results v.name v.level_2 ≠ []) ∧
    (∀ name eff, (name, eff) ∈ me.effects →
      ∃ v ∈ vs, v.name = name ∧
        eff.sum_of_squares = eff.effect_size ^ 2 *
          ((utilitiesForLevel results v.name v.level_1).length : ℚ)) ∧
    ((vs.map Variable.name).Nodup → 0 < me.total_ss →
      (me.effects.map fun p => p.2.contribution_pct).sum = 100) ∧
    (me.total_ss = 0 → ∀ p ∈ me.effects, p.2.contribution_pct = 0) := by
  obtain ⟨hlen, hne, effects, total, hfold, -, htot, heff⟩ :=
    compute_ok_inversion hok
  refine ⟨⟨hlen, fun hv => hne (by rw [hv]; rfl), ?_⟩, ?_, ?_, ?_⟩
  · exact computeFold_allNonempty results vs ([], 0) (effects, total) hfold
  · intro name eff hmem
    rw [heff] at hmem
    by_cases hpos : total > 0
    · rw [if_pos hpos] at hmem
      obtain ⟨p, hp, hpe⟩ := List.mem_map.mp hmem
      rcases computeFold_mem results vs ([], 0) (effects, total) hfold p hp with
        h | ⟨v, hv, rfl⟩
      · cases h
      · obtain ⟨he1, he2⟩ := Prod.mk.injEq .. ▸ hpe
        refine ⟨v, hv, he1, ?_⟩
        rw [← he2]
        rfl
    · rw [if_neg hpos] at hmem
      obtain ⟨p, hp, hpe⟩ := List.mem_map.mp hmem
      rcases computeFold_mem results vs ([], 0) (effects, total) hfold p hp with
        h | ⟨v, hv, rfl⟩
      · cases h
      · obtain ⟨he1, he2⟩ := Prod.mk.injEq .. ▸ hpe
        refine ⟨v, hv, he1, ?_⟩
        rw [← he2]
        rfl
  · intro hnodup hpos
    rw [htot] at hpos
    obtain ⟨h1, h2⟩ := computeFold_nodup results vs ([], 0) (effects, total)
      hnodup (by intro v _ hm; cases hm) hfold
    simp only [List.nil_append, zero_add] at h1 h2
    rw [heff, if_pos hpos, h1]
    exact pct_sum_eq_100 results total vs h2.symm (ne_of_gt hpos)
  · intro htz p hp
    rw [htot] at htz
    rw [heff, htz, if_neg (lt_irrefl 0)] at hp
    obtain ⟨q, hq, hqe⟩ := List.mem_map.mp hp
    rw [← hqe]

/-- **C8 (counterexample).** Eight results with non-constant utility
(utilities 0 and 1 both occur) whose level means are balanced: the
total sum of squares is 0, `compute` succeeds, and the contribution
percentages sum to 0 — not to 100 ± 0.5 as the claim states for any
non-constant utility. -/
theorem main_effects_nonconstant_zero_contribution_counterexample :
    (∃ r₁ ∈ zeroSSResults, ∃ r₂ ∈ zeroSSResults, r₁.utility ≠ r₂.utility) ∧
    MainEffectsAnalyzer.compute zeroSSResults
      [({ name := "v", level_1 := 0, level_2 := 1 } : Variable ℚ)] "exp" =
      .ok { experiment_id := "exp",
            effects := [("v",
              { variable_name := "v", avg_level_1 := 1/2, avg_level_2 := 1/2,
                effect_size := 0, sum_of_squares := 0,
                contribution_pct := 0 })],
            total_ss := 0 } ∧
    (([("v",
        ({ variable_name := "v", avg_level_1 := 1/2, avg_level_2 := 1/2,
           effect_size := 0, sum_of_squares := 0, contribution_pct := 0 } :
          Effect))]).map fun p => p.2.contribution_pct).sum = 0 := by
  refine ⟨⟨lvlResult 1 0 0, by simp [zeroSSResults], lvlResult 2 0 1,
    by simp [zeroSSResults], by norm_num [lvlResult]⟩, ?_, by simp⟩
  simp only [MainEffectsAnalyzer.compute, zeroSSResults, lvlResult, qsUnit,
    computeStep, utilitiesForLevel, mkEffect?, mkMainEffects?, isclose, fmean,
    dset, dlookup, List.foldlM, List.filterMap, List.map, List.foldl,
    List.length, List.isEmpty, List.contains, List.elem, decide_eq_true_eq,
    Bind.bind, Except.bind, Pure.pure, Except.pure, gt_iff_lt]
  norm_num

/-- Witness for C8 (amended) at a concrete input: a clean 0-vs-1
utility split gives a positive total sum of squares and the single
contribution is exactly 100. -/
theorem main_effects_compute_spec_witness :
    (([("v",
        ({ variable_name := "v", avg_level_1 := 0, avg_level_2 := 1,
           effect_size := 1, sum_of_squares := 4, contribution_pct := 100 } :
          Effect))]).map fun p => p.2.contribution_pct).sum = 100 := by
  have hok : MainEffectsAnalyzer.compute posSSResults
      [({ name := "v", level_1 := 0, level_2 := 1 } : Variable ℚ)] "exp" =
      .ok { experiment_id := "exp",
            effects := [("v",
              { variable_name := "v", avg_level_1 := 0, avg_level_2 := 1,
                effect_size := 1, sum_of_squares := 4,
                contribution_pct := 100 })],
            total_ss := 4 } := by
    simp only [MainEffectsAnalyzer.compute, posSSResults, lvlResult, qsUnit,
      computeStep, utilitiesForLevel, mkEffect?, mkMainEffects?, isclose, fmean,
      dset, dlookup, List.foldlM, List.filterMap, List.map, List.foldl,
      List.length, List.isEmpty, List.contains, List.elem, decide_eq_true_eq,
      Bind.bind, Except.bind, Pure.pure, Except.pure, gt_iff_lt]
    norm_num
  exact (main_effects_compute_spec posSSResults
    [({ name := "v", level_1 := 0, level_2 := 1 } : Variable ℚ)] "exp" _
    hok).2.2.1 (by simp) (by norm_num)

/-! ### Recalculation lemmas (shared by C3 and C5) -/

theorem minMaxNormalize_fst_length (l : List ℚ) :
    (minMaxNormalize l).1.length = l.length := by
  cases l with
  | nil => rfl
  | cons v rest =>
    simp only [minMaxNormalize]
    by_cases h : rest.foldl max v = rest.foldl min v
    · rw [if_pos h]
      simp
    · rw [if_neg h]
      simp

theorem sortByTestNumber_perm {α : Type} (rs : List (TestResult α)) :
    List.Perm (sortByTestNumber rs) rs :=
  List.perm_insertionSort tnLE rs

theorem sortByTestNumber_sorted {α : Type} (rs : List (TestResult α)) :
    List.Sorted tnLE (sortByTestNumber rs) :=
  List.sorted_insertionSort tnLE rs

theorem map_coreOf_zip_withU {α : Type} (w : UtilityWeights) :
    ∀ (l : List (TestResult α)) (z : List (ℚ × ℚ)), l.length ≤ z.length →
      (((l.zip z).map fun p =>
        p.1.with_utility (UtilityFunction.compute w
          p.1.quality_score.overall_score p.2.1 p.2.2)).map coreOf) =
      l.map coreOf := by
  intro l
  induction l with
  | nil => intro z _; rfl
  | cons a l ih =>
    intro z h
    cases z with
    | nil => simp at h
    | cons z0 zs =>
      simp only [List.zip_cons_cons, List.map_cons,
        ih zs (Nat.le_of_succ_le_succ (by simpa using h))]
      rfl

theorem recalc_map_coreOf {α : Type} (run : ExperimentRun α)
    (rs : List (TestResult α)) :
    (run.recalculate_utilities rs).map coreOf =
      (sortByTestNumber rs).map coreOf := by
  simp only [ExperimentRun.recalculate_utilities]
  by_cases h : (sortByTestNumber rs).isEmpty
  · rw [if_pos h]
  · rw [if_neg h]
    apply map_coreOf_zip_withU
    rw [List.length_zip, minMaxNormalize_fst_length, minMaxNormalize_fst_length,
      List.length_map, List.length_map, min_self]

theorem map_field_of_map_coreOf {α : Type} {β : Type}
    (m : List (TestResult α)) (f : TestResult α → β)
    (hf : ∀ r, f (coreOf r) = f r) :
    (m.map coreOf).map f = m.map f := by
  rw [List.map_map]
  exact List.map_congr_left fun r _ => hf r

theorem recalc_map_tn {α : Type} (run : ExperimentRun α)
    (rs : List (TestResult α)) :
    (run.recalculate_utilities rs).map (fun r => r.test_number) =
      (sortByTestNumber rs).map (fun r => r.test_number) := by
  rw [← map_field_of_map_coreOf (run.recalculate_utilities rs)
      (fun r => r.test_number) (fun _ => rfl),
    recalc_map_coreOf,
    map_field_of_map_coreOf (sortByTestNumber rs)
      (fun r => r.test_number) (fun _ => rfl)]

theorem recalc_length {α : Type} (run : ExperimentRun α)
    (rs : List (TestResult α)) :
    (run.recalculate_utilities rs).length = rs.length := by
  have h := congrArg List.length (recalc_map_coreOf run rs)
  simp only [List.length_map] at h
  rw [h]
  exact (sortByTestNumber_perm rs).length_eq

theorem zip_withU_congr {α : Type} (w : UtilityWeights) :
    ∀ (l₁ l₂ : List (TestResult α)) (z : List (ℚ × ℚ)),
      l₁.map coreOf = l₂.map coreOf →
      (l₁.zip z).map (fun p =>
        p.1.with_utility (UtilityFunction.compute w
          p.1.quality_score.overall_score p.2.1 p.2.2)) =
      (l₂.zip z).map (fun p =>
        p.1.with_utility (UtilityFunction.compute w
          p.1.quality_score.overall_score p.2.1 p.2.2)) := by
  intro l₁
  induction l₁ with
  | nil =>
    intro l₂ z h
    rw [List.map_nil] at h
    rw [List.map_eq_nil_iff.mp h.symm]
  | cons a l ih =>
    intro l₂ z h
    cases l₂ with
    | nil => simp at h
    | cons b l₂' =>
      simp only [List.map_cons, List.cons.injEq] at h
      cases z with
      | nil => rfl
      | cons z0 zs =>
        simp only [List.zip_cons_cons, List.map_cons]
        rw [ih l₂' zs h.2]
        have hcore : (coreOf a).with_utility (UtilityFunction.compute w
            (coreOf a).quality_score.overall_score z0.1 z0.2) =
          (coreOf b).with_utility (UtilityFunction.compute w
            (coreOf b).quality_score.overall_score z0.1 z0.2) := by
          rw [h.1]
        exact congrArg (· :: _) hcore

theorem sorted_strict_cores_of_nodup {α : Type} (s : List (TestResult α))
    (hs : List.Sorted tnLE s)
    (hnd : (s.map fun r => r.test_number).Nodup) :
    List.Sorted tnLT (s.map coreOf) := by
  rw [List.Sorted, List.pairwise_map]
  have hne : List.Pairwise
      (fun a b : TestResult α => a.test_number ≠ b.test_number) s := by
    rw [List.Nodup, List.pairwise_map] at hnd
    exact hnd
  have hle : List.Pairwise (fun a b : TestResult α => tnLE a b) s := hs
  exact (hle.and hne).imp fun h => lt_of_le_of_ne h.1 h.2

theorem recalc_congr {α : Type} (run₁ run₂ : ExperimentRun α)
    (hw : run₁.config.utility_weights = run₂.config.utility_weights)
    (rs₁ rs₂ : List (TestResult α))
    (hperm : (rs₁.map coreOf).Perm (rs₂.map coreOf))
    (hnd : (rs₁.map fun r => r.test_number).Nodup) :
    run₁.recalculate_utilities rs₁ = run₂.recalculate_utilities rs₂ := by
  have htn2 : (rs₂.map fun r => r.test_number).Nodup := by
    rw [← map_field_of_map_coreOf rs₂ (fun r => r.test_number) (fun _ => rfl)]
    refine (hperm.map fun r => r.test_number).nodup ?_
    rw [map_field_of_map_coreOf rs₁ (fun r => r.test_number) (fun _ => rfl)]
    exact hnd
  have hnds₁ : ((sortByTestNumber rs₁).map fun r => r.test_number).Nodup :=
    (((sortByTestNumber_perm rs₁).map fun r => r.test_number).nodup_iff).mpr hnd
  have hnds₂ : ((sortByTestNumber rs₂).map fun r => r.test_number).Nodup :=
    (((sortByTestNumber_perm rs₂).map fun r => r.test_number).nodup_iff).mpr htn2
  have hperm' : ((sortByTestNumber rs₁).map coreOf).Perm
      ((sortByTestNumber rs₂).map coreOf) :=
    (((sortByTestNumber_perm rs₁).map coreOf).trans hperm).trans
      ((sortByTestNumber_perm rs₂).map coreOf).symm
  have hkey : (sortByTestNumber rs₁).map coreOf =
      (sortByTestNumber rs₂).map coreOf :=
    List.eq_of_perm_of_sorted hperm'
      (sorted_strict_cores_of_nodup _ (sortByTestNumber_sorted rs₁) hnds₁)
      (sorted_strict_cores_of_nodup _ (sortByTestNumber_sorted rs₂) hnds₂)
  have hcost : (sortByTestNumber rs₁).map (fun r => r.cost) =
      (sortByTestNumber rs₂).map (fun r => r.cost) := by
    rw [← map_field_of_map_coreOf (sortByTestNumber rs₁)
        (fun r => r.cost) (fun _ => rfl), hkey,
      map_field_of_map_coreOf (sortByTestNumber rs₂)
        (fun r => r.cost) (fun _ => rfl)]
  have hlat : (sortByTestNumber rs₁).map (fun r => r.latency) =
      (sortByTestNumber rs₂).map (fun r => r.latency) := by
    rw [← map_field_of_map_coreOf (sortByTestNumber rs₁)
        (fun r => r.latency) (fun _ => rfl), hkey,
      map_field_of_map_coreOf (sortByTestNumber rs₂)
        (fun r => r.latency) (fun _ => rfl)]
  have hlen := congrArg List.length hkey
  simp only [List.length_map] at hlen
  have hemp : (sortByTestNumber rs₁).isEmpty = (sortByTestNumber rs₂).isEmpty := by
    cases h1 : sortByTestNumber rs₁ with
    | nil =>
      cases h2 : sortByTestNumber rs₂ with
      | nil => rfl
      | cons b t => rw [h1, h2] at hlen; cases hlen
    | cons a t =>
      cases h2 : sortByTestNumber rs₂ with
      | nil => rw [h1, h2] at hlen; cases hlen
      | cons b t' => rfl
  simp only [ExperimentRun.recalculate_utilities]
  by_cases h : (sortByTestNumber rs₁).isEmpty = true
  · have h2 : (sortByTestNumber rs₂).isEmpty = true := by rw [← hemp]; exact h
    rw [if_pos h, if_pos h2]
    rw [List.isEmpty_iff.mp h]
    exact (List.isEmpty_iff.mp h2).symm
  · have h2 : ¬ (sortByTestNumber rs₂).isEmpty = true := by rw [← hemp]; exact h
    rw [if_neg h, if_neg h2]
    rw [hcost, hlat, hw]
    exact zip_withU_congr _ _ _ _ hkey

/-! ### Record-result inversion and fold lemmas -/

theorem record_result_ok {α : Type} [DecidableEq α] {run : ExperimentRun α}
    {result : TestResult α} {run' : ExperimentRun α}
    (h : run.record_result result = .ok run') :
    run.status = .RUNNING ∧
    (∀ e ∈ run.results, e.test_number ≠ result.test_number) ∧
    run.results.length < run.test_configurations.length ∧
    run'.results = run.recalculate_utilities (run.results ++ [result]) ∧
    run'.status = run.status ∧
    run'.config = run.config ∧
    run'.test_configurations = run.test_configurations ∧
    run'.quality_improvement_pct =
      calculate_improvement run'.results run'.baseline_quality := by
  unfold ExperimentRun.record_result at h
  by_cases h1 : run.status ≠ ExperimentStatus.RUNNING
  · rw [if_pos h1] at h; cases h
  · rw [if_neg h1] at h
    by_cases h2 : run.results.any
        (fun e => e.test_number == result.test_number) = true
    · rw [if_pos h2] at h; cases h
    · rw [if_neg h2] at h
      by_cases h3 : run.results.length ≥ run.test_configurations.length
      · rw [if_pos h3] at h; cases h
      · rw [if_neg h3] at h
        cases h
        refine ⟨not_not.mp h1, ?_, lt_of_not_ge h3, rfl, rfl, rfl, rfl, rfl⟩
        intro e he heq
        apply h2
        rw [List.any_eq_true]
        exact ⟨e, he, by rw [heq]; exact beq_self_eq_true _⟩

theorem record_result_succeeds {α : Type} [DecidableEq α]
    (run : ExperimentRun α) (result : TestResult α)
    (h1 : run.status = .RUNNING)
    (h2 : ∀ e ∈ run.results, e.test_number ≠ result.test_number)
    (h3 : run.results.length < run.test_configurations.length) :
    ∃ run', run.record_result result = .ok run' := by
  unfold ExperimentRun.record_result
  rw [if_neg (fun hc => hc h1), if_neg, if_neg (not_le.mpr h3)]
  · exact ⟨_, rfl⟩
  · intro hany
    obtain ⟨e, he, hbeq⟩ := List.any_eq_true.mp hany
    exact h2 e he (beq_iff_eq.mp hbeq)

theorem recordAll_ok {α : Type} [DecidableEq α] :
    ∀ (l : List (TestResult α)) (run : ExperimentRun α),
      run.status = .RUNNING →
      (((run.results ++ l).map fun r => r.test_number)).Nodup →
      run.results.length + l.length ≤ run.test_configurations.length →
      ∃ run', recordAll run l = .ok run' ∧
        run'.status = .RUNNING ∧
        run'.config = run.config ∧
        run'.test_configurations = run.test_configurations ∧
        (l = [] → run' = run) ∧
        (l ≠ [] →
          run'.results = run.recalculate_utilities (run.results ++ l)) := by
  intro l
  induction l with
  | nil =>
    intro run hst _ _
    exact ⟨run, rfl, hst, rfl, rfl, fun _ => rfl, fun hne => absurd rfl hne⟩
  | cons r rest ih =>
    intro run hst hnodup hlen
    have hnodup' : ((run.results.map fun x => x.test_number) ++
        ((r :: rest).map fun x => x.test_number)).Nodup := by
      rw [← List.map_append]; exact hnodup
    obtain ⟨hnd_res, hnd_tail, hdisj⟩ := List.nodup_append.mp hnodup'
    have hdup : ∀ e ∈ run.results, e.test_number ≠ r.test_number := by
      intro e he heq
      exact hdisj (List.mem_map.mpr ⟨e, he, rfl⟩) (by simp [heq])
    have hcnt : run.results.length < run.test_configurations.length := by
      simp only [List.length_cons] at hlen
      omega
    obtain ⟨run₁, hrec⟩ := record_result_succeeds run r hst hdup hcnt
    obtain ⟨-, -, -, hres1, hstat1, hconf1, htc1, -⟩ := record_result_ok hrec
    have hstatus1 : run₁.status = .RUNNING := by rw [hstat1]; exact hst
    have htnperm : (run₁.results.map fun x => x.test_number).Perm
        ((run.results ++ [r]).map fun x => x.test_number) := by
      rw [hres1, recalc_map_tn]
      exact (sortByTestNumber_perm _).map _
    have happ : run.results ++ r :: rest = (run.results ++ [r]) ++ rest := by
      rw [List.append_assoc]
      rfl
    have hnodup1 : ((run₁.results ++ rest).map fun x => x.test_number).Nodup := by
      rw [List.map_append]
      refine ((htnperm.append_right (rest.map fun x => x.test_number)).nodup_iff).mpr ?_
      rw [← List.map_append, ← happ]
      exact hnodup
    have hlen1 : run₁.results.length + rest.length ≤
        run₁.test_configurations.length := by
      rw [htc1, hres1, recalc_length, List.length_append]
      simp only [List.length_cons] at hlen
      simp only [List.length_singleton]
      omega
    obtain ⟨run', hfold, hst', hconf', htc', -, hcons'⟩ :=
      ih run₁ hstatus1 hnodup1 hlen1
    have hresfin : run'.results =
        run.recalculate_utilities (run.results ++ r :: rest) := by
      by_cases hrest : rest = []
      · subst hrest
        have hnil' : run' = run₁ := by
          obtain ⟨runx, hfoldx, -, -, -, hnilx, -⟩ :=
            ih run₁ hstatus1 hnodup1 hlen1
          rw [hfold] at hfoldx
          cases hfoldx
          exact (hnilx rfl)
        rw [hnil', hres1]
      · have hres' := hcons' hrest
        rw [hres']
        apply recalc_congr
        · rw [hconf1]
        · rw [happ, List.map_append, List.map_append]
          refine List.Perm.append_right _ ?_
          rw [hres1, recalc_map_coreOf]
          exact (sortByTestNumber_perm _).map _
        · have := hnodup1
          rw [List.map_append] at this
          rw [List.map_append]
          exact this
    refine ⟨run', ?_, hst', hconf'.trans hconf1, htc'.trans htc1,
      fun habs => (by cases habs), fun _ => hresfin⟩
    simp only [recordAll]
    rw [hrec]
    exact hfold

/-! ### Pareto frontier lemmas (shared by C2 and C10) -/

theorem mkParetoPoint?_valid {α : Type} (r : TestResult α) (h : r.Valid) :
    mkParetoPoint? r.config r.quality_score.overall_score r.cost r.latency
      r.utility = .ok (pointOf r) := by
  obtain ⟨-, hc, hl, hq0, hq1⟩ := h
  unfold mkParetoPoint?
  rw [if_neg (not_or.mpr ⟨not_lt.mpr hq0, not_lt.mpr hq1⟩),
    if_neg (not_lt.mpr hc), if_neg (not_lt.mpr hl)]
  rfl

theorem buildRawPoints_ok {α : Type} (results : List (TestResult α))
    (h : ∀ r ∈ results, r.Valid) :
    buildRawPoints results = .ok (results.map pointOf) := by
  induction results with
  | nil => rfl
  | cons r rest ih =>
    unfold buildRawPoints
    rw [mkParetoPoint?_valid r (h r (List.mem_cons_self r rest)),
      ih fun x hx => h x (List.mem_cons_of_mem r hx)]
    rfl

theorem axis_norm_id (s : String)
    (h : s = "cost" ∨ s = "latency" ∨ s = "quality" ∨ s = "utility") :
    pyLower (pyStrip s) = s := by
  rcases h with rfl | rfl | rfl | rfl <;> decide

theorem sortedPoints_perm {α : Type} (ax ay : String)
    (raw : List (ParetoPoint α)) :
    List.Perm (List.insertionSort (sortKeyLE ax ay) raw) raw :=
  List.perm_insertionSort _ raw

theorem updatedPoints_mem {α : Type} [DecidableEq α] {ax ay : String}
    {raw : List (ParetoPoint α)} {p : ParetoPoint α}
    (hp : p ∈ updatedPoints ax ay raw) :
    ∃ q ∈ raw, p =
      { q with
        is_optimal :=
          (sweepOptimal ay (List.insertionSort (sortKeyLE ax ay) raw)
            none).contains q.test_number,
        dominated_by :=
          (dlookup (compute_dominance ax ay
            (List.insertionSort (sortKeyLE ax ay) raw))
            q.test_number).getD none } := by
  obtain ⟨q, hq, he⟩ := List.mem_map.mp hp
  exact ⟨q, hq, he.symm⟩

theorem updatedPoints_has_optimal {α : Type} [DecidableEq α] (ax ay : String)
    (raw : List (ParetoPoint α)) (hne : raw ≠ []) :
    ∃ p ∈ updatedPoints ax ay raw, p.is_optimal = true := by
  obtain ⟨p₀, s', hs⟩ : ∃ p₀ s',
      List.insertionSort (sortKeyLE ax ay) raw = p₀ :: s' := by
    cases hsort : List.insertionSort (sortKeyLE ax ay) raw with
    | nil =>
      exact absurd (List.Perm.eq_nil ((hsort ▸ sortedPoints_perm ax ay raw).symm))
        hne
    | cons a t => exact ⟨a, t, rfl⟩
  have hp₀raw : p₀ ∈ raw :=
    (sortedPoints_perm ax ay raw).subset (hs ▸ List.mem_cons_self p₀ s')
  refine ⟨_, List.mem_map.mpr ⟨p₀, hp₀raw, rfl⟩, ?_⟩
  simp only [hs, sweepOptimal]
  simp [List.contains_cons]

theorem mkParetoFrontier?_of_updated {α : Type} [DecidableEq α]
    (eid ax ay : String) (raw : List (ParetoPoint α)) (hne : raw ≠ []) :
    mkParetoFrontier? eid (updatedPoints ax ay raw)
      ((updatedPoints ax ay raw).filter fun p => p.is_optimal) ax ay =
    .ok { experiment_id := eid, points := updatedPoints ax ay raw,
          optimal_points :=
            (updatedPoints ax ay raw).filter fun p => p.is_optimal,
          x_axis := ax, y_axis := ay } := by
  obtain ⟨popt, hpopt, hflag⟩ := updatedPoints_has_optimal ax ay raw hne
  have hupne : updatedPoints ax ay raw ≠ [] := by
    intro hnil
    rw [hnil] at hpopt
    cases hpopt
  have hfilne : (updatedPoints ax ay raw).filter (fun p => p.is_optimal) ≠ [] := by
    intro hnil
    have := List.mem_filter.mpr ⟨hpopt, hflag⟩
    rw [hnil] at this
    cases this
  unfold mkParetoFrontier?
  rw [if_neg (by simpa [List.isEmpty_iff] using hupne),
    if_neg (by simpa [List.isEmpty_iff] using hfilne), if_neg, if_neg]
  · intro hall
    apply hall
    rw [List.all_eq_true]
    intro p hp
    have hpmem : p ∈ updatedPoints ax ay raw := List.mem_of_mem_filter hp
    rw [List.any_eq_true]
    exact ⟨p, hpmem, by simp⟩
  · intro hany
    rw [List.any_eq_true] at hany
    obtain ⟨p, hp, hneg⟩ := hany
    have := (List.mem_filter.mp hp).2
    simp only [this] at hneg
    cases hneg

theorem compute_ok {α : Type} [DecidableEq α] (results : List (TestResult α))
    (eid ax ay : String) (hne : results ≠ [])
    (hvalid : ∀ r ∈ results, r.Valid)
    (hx : ax = "cost" ∨ ax = "latency")
    (hy : ay = "quality" ∨ ay = "utility") :
    ParetoFrontier.compute results eid ax ay =
      .ok { experiment_id := eid,
            points := updatedPoints ax ay (results.map pointOf),
            optimal_points :=
              (updatedPoints ax ay (results.map pointOf)).filter
                fun p => p.is_optimal,
            x_axis := ax, y_axis := ay } := by
  have haxx : pyLower (pyStrip ax) = ax :=
    axis_norm_id ax (by tauto)
  have haxy : pyLower (pyStrip ay) = ay :=
    axis_norm_id ay (by tauto)
  have hrawne : results.map pointOf ≠ [] := by
    intro hnil
    exact hne (List.map_eq_nil_iff.mp hnil)
  unfold ParetoFrontier.compute
  rw [if_neg (by simpa [List.isEmpty_iff] using hne)]
  simp only [haxx, haxy]
  rw [if_neg, if_neg]
  · rw [buildRawPoints_ok results hvalid]
    exact mkParetoFrontier?_of_updated eid ax ay (results.map pointOf) hrawne
  · rcases hy with rfl | rfl
    · exact fun hc => hc.1 rfl
    · exact fun hc => hc.2 rfl
  · rcases hx with rfl | rfl
    · exact fun hc => hc.1 rfl
    · exact fun hc => hc.2 rfl

/-- The replicated-run pair of results is valid (constructor bounds). -/
theorem c10_results_valid : ∀ r ∈ [c10res9, c10res8], TestResult.Valid r := by
  intro r hr
  rcases List.mem_cons.mp hr with rfl | hr
  · exact ⟨by norm_num [c10res9], by norm_num [c10res9],
      by norm_num [c10res9], by norm_num [c10res9, qsOf],
      by norm_num [c10res9, qsOf]⟩
  · rcases List.mem_cons.mp hr with rfl | hr
    · exact ⟨by norm_num [c10res8], by norm_num [c10res8],
        by norm_num [c10res8], by norm_num [c10res8, qsOf],
        by norm_num [c10res8, qsOf]⟩
    · cases hr

/-! ## Claim C10 -/

/-- **C10 (amended).** For every valid non-empty result set — test
numbers above 8 included — and valid axes, `ParetoFrontier.compute`
*succeeds*: the `dominated_by ≤ 8` field constraint of `ParetoPoint`
never fires because the flag-update pass uses `model_copy` and the
frontier constructor does not re-validate nested points, so a dominator
with test number above 8 is recorded without any validation error. -/
theorem pareto_compute_succeeds {α : Type} [DecidableEq α]
    (results : List (TestResult α)) (eid ax ay : String)
    (hne : results ≠ []) (hvalid : ∀ r ∈ results, r.Valid)
    (hx : ax = "cost" ∨ ax = "latency")
    (hy : ay = "quality" ∨ ay = "utility") :
    ∃ f : ParetoFrontier α, ParetoFrontier.compute results eid ax ay = .ok f :=
  ⟨_, compute_ok results eid ax ay hne hvalid hx hy⟩

/-- **C10 (counterexample).** At the very input the claim says must
fail — a valid result set containing test number 9 where the dominated
point's first-found dominator is test 9 — `compute` returns a frontier
(no validation error), and the dominated point records
`dominated_by = 9 > 8`. -/
theorem pareto_dominated_by_nine_counterexample :
    ∃ f : ParetoFrontier ℚ,
      ParetoFrontier.compute [c10res9, c10res8] "exp" "cost" "quality" =
        .ok f ∧
      f.points.map (fun p => (p.test_number, p.is_optimal, p.dominated_by)) =
        [(9, true, none), (8, false, some 9)] := by
  refine ⟨_, compute_ok [c10res9, c10res8] "exp" "cost" "quality"
    (by decide) c10_results_valid (Or.inl rfl) (Or.inl rfl), ?_⟩
  have hqc : (("quality" : String) = "cost") = False := eq_false (by decide)
  have hql : (("quality" : String) = "latency") = False := eq_false (by decide)
  have hcc : (("cost" : String) = "cost") = True := eq_true rfl
  have hne98 : ((9 : ℕ) != 8) = true := by decide
  have hne89 : ((8 : ℕ) != 9) = true := by decide
  have heq89 : ((8 : ℕ) == 9) = false := by decide
  have heq98 : ((9 : ℕ) == 8) = false := by decide
  norm_num [hqc, hql, hcc, hne98, hne89, heq89, heq98,
    updatedPoints, sweepOptimal, compute_dominance,
    dominatesB, axis_value, sortKeyLE, TOLERANCE, ParetoPoint.test_number,
    List.insertionSort, List.orderedInsert, dset, dlookup, pointOf,
    c10res8, c10res9, qsOf, List.foldl, List.map, List.find?, List.filter,
    List.contains, List.elem, Option.getD, ne_eq, decide_eq_true_eq]

/-- Witness for C10 (amended): the concrete two-point replicated-run
subset succeeds. -/
theorem pareto_compute_succeeds_witness :
    ∃ f : ParetoFrontier ℚ,
      ParetoFrontier.compute [c10res9, c10res8] "exp" "cost" "quality" =
        .ok f :=
  pareto_compute_succeeds [c10res9, c10res8] "exp" "cost" "quality"
    (by decide) c10_results_valid (Or.inl rfl) (Or.inl rfl)

/-! ## Sweep and dominance lemmas (shared by the C2 development) -/

theorem axis_value_update {α : Type} (q : ParetoPoint α) (b : Bool)
    (d : Option ℕ) (s : String) :
    axis_value { q with is_optimal := b, dominated_by := d } s =
      axis_value q s := rfl

theorem test_number_update {α : Type} (q : ParetoPoint α) (b : Bool)
    (d : Option ℕ) :
    ({ q with is_optimal := b, dominated_by := d } :
      ParetoPoint α).test_number = q.test_number := rfl

theorem dominatesB_update {α : Type} (ax ay : String)
    (c q : ParetoPoint α) (b b' : Bool) (d d' : Option ℕ) :
    dominatesB ax ay { c with is_optimal := b, dominated_by := d }
      { q with is_optimal := b', dominated_by := d' } =
      dominatesB ax ay c q := rfl

theorem dominatesB_false_of_x {α : Type} (ax ay : String)
    (c q : ParetoPoint α)
    (h : axis_value q ax + TOLERANCE < axis_value c ax) :
    dominatesB ax ay c q = false := by
  have hn : ¬ (axis_value c ax ≤ axis_value q ax + TOLERANCE) := not_le.mpr h
  simp [dominatesB, hn]

theorem dominatesB_false_of_y {α : Type} (ax ay : String)
    (c q : ParetoPoint α)
    (h : axis_value c ay < axis_value q ay - TOLERANCE) :
    dominatesB ax ay c q = false := by
  have hn : ¬ (axis_value q ay - TOLERANCE ≤ axis_value c ay) := not_le.mpr h
  simp [dominatesB, hn]

theorem dominatesB_true_of {α : Type} (ax ay : String)
    (c q : ParetoPoint α)
    (h1 : axis_value c ax ≤ axis_value q ax + TOLERANCE)
    (h2 : axis_value q ay - TOLERANCE ≤ axis_value c ay)
    (h3 : axis_value c ax < axis_value q ax - TOLERANCE ∨
      axis_value q ay + TOLERANCE < axis_value c ay) :
    dominatesB ax ay c q = true := by
  rcases h3 with h3 | h3 <;>
    simp [dominatesB, h1, h2, h3]

/-- Every test number emitted by the sweep belongs to a scanned point. -/
theorem sweep_subset {α : Type} (ay : String) :
    ∀ (L : List (ParetoPoint α)) (acc : Option ℚ) (t : ℕ),
      t ∈ sweepOptimal ay L acc → ∃ p ∈ L, p.test_number = t := by
  intro L
  induction L with
  | nil => intro acc t ht; cases ht
  | cons p rest ih =>
    intro acc t ht
    cases acc with
    | none =>
      rw [sweepOptimal] at ht
      rcases List.mem_cons.mp ht with h | h
      · exact ⟨p, List.mem_cons_self p rest, h.symm⟩
      · obtain ⟨r, hr, hrt⟩ := ih _ t h
        exact ⟨r, List.mem_cons_of_mem p hr, hrt⟩
    | some best =>
      rw [sweepOptimal] at ht
      by_cases hb : best + TOLERANCE < axis_value p ay
      · rw [if_pos hb] at ht
        rcases List.mem_cons.mp ht with h | h
        · exact ⟨p, List.mem_cons_self p rest, h.symm⟩
        · obtain ⟨r, hr, hrt⟩ := ih _ t h
          exact ⟨r, List.mem_cons_of_mem p hr, hrt⟩
      · rw [if_neg hb] at ht
        obtain ⟨r, hr, hrt⟩ := ih _ t ht
        exact ⟨r, List.mem_cons_of_mem p hr, hrt⟩

/-- The dominance-assignment fold never touches keys whose test number
is absent from the scanned list. -/
theorem dom_fold_frame {α : Type} [DecidableEq α]
    (g : ParetoPoint α → Option (ParetoPoint α)) :
    ∀ (L : List (ParetoPoint α)) (d0 : List (ℕ × Option ℕ)) (k : ℕ),
      (∀ p ∈ L, p.test_number ≠ k) →
      dlookup (L.foldl (fun d p =>
        match g p with
        | some c => dset d p.test_number (some c.test_number)
        | none => d) d0) k = dlookup d0 k := by
  intro L
  induction L with
  | nil => intro d0 k _; rfl
  | cons p rest ih =>
    intro d0 k hk
    rw [List.foldl_cons]
    have hpk : p.test_number ≠ k := hk p (List.mem_cons_self p rest)
    have hrest : ∀ r ∈ rest, r.test_number ≠ k := fun r hr =>
      hk r (List.mem_cons_of_mem p hr)
    rw [ih _ k hrest]
    cases hg : g p with
    | none => rfl
    | some c => exact dlookup_dset_ne d0 p.test_number k _ hpk

/-- With pairwise-distinct test numbers, the dominance fold records at
a point's key exactly the assignment its own iteration makes. -/
theorem dom_fold_lookup {α : Type} [DecidableEq α]
    (g : ParetoPoint α → Option (ParetoPoint α)) :
    ∀ (L : List (ParetoPoint α)) (d0 : List (ℕ × Option ℕ))
      (q c₁ : ParetoPoint α), q ∈ L →
      (L.map ParetoPoint.test_number).Nodup → g q = some c₁ →
      dlookup (L.foldl (fun d p =>
        match g p with
        | some c => dset d p.test_number (some c.test_number)
        | none => d) d0) q.test_number = some (some c₁.test_number) := by
  intro L
  induction L with
  | nil => intro d0 q c₁ hq _ _; cases hq
  | cons p rest ih =>
    intro d0 q c₁ hq hnd hg
    rw [List.map_cons] at hnd
    obtain ⟨hp_nin, hnd'⟩ := List.nodup_cons.mp hnd
    rw [List.foldl_cons]
    rcases List.mem_cons.mp hq with rfl | hq'
    · have hframe : ∀ r ∈ rest, r.test_number ≠ q.test_number := by
        intro r hr hcon
        exact hp_nin
          (hcon ▸ List.mem_map_of_mem ParetoPoint.test_number hr)
      rw [dom_fold_frame g rest _ q.test_number hframe, hg]
      exact dlookup_dset_self d0 q.test_number (some c₁.test_number)
    · exact ih _ q c₁ hq' hnd' hg

/-- Under a tolerance-separated strictly increasing x-chain and
pairwise y-separation, the sweep marks exactly the undominated points:
every marked point has no dominator anywhere in the list, and every
unmarked point has one.  (`pre`/`acc` generalize the scan state: `acc`
is the best y among the already-scanned prefix.) -/
theorem sweep_spec {α : Type} (ax ay : String)
    (glob : List (ParetoPoint α))
    (hchain : glob.Pairwise (fun p q =>
      axis_value p ax + TOLERANCE < axis_value q ax))
    (hsepY : ∀ p ∈ glob, ∀ q ∈ glob, p.test_number ≠ q.test_number →
      TOLERANCE < |axis_value p ay - axis_value q ay|)
    (hnd : (glob.map ParetoPoint.test_number).Nodup) :
    ∀ (L pre : List (ParetoPoint α)) (acc : Option ℚ),
      glob = pre ++ L →
      ((pre = [] ∧ acc = none) ∨
        (∃ b, acc = some b ∧ (∃ c ∈ pre, axis_value c ay = b) ∧
          ∀ c ∈ pre, axis_value c ay ≤ b)) →
      ∀ q ∈ L,
        (q.test_number ∈ sweepOptimal ay L acc →
          ∀ c ∈ glob, c.test_number ≠ q.test_number →
            dominatesB ax ay c q = false) ∧
        (q.test_number ∉ sweepOptimal ay L acc →
          ∃ c ∈ glob, c.test_number ≠ q.test_number ∧
            dominatesB ax ay c q = true) := by
  have htol : (0 : ℚ) < TOLERANCE := by norm_num [TOLERANCE]
  have hndp : glob.Pairwise (fun a b =>
      a.test_number ≠ b.test_number) := by
    have h := hnd
    rw [List.Nodup, List.pairwise_map] at h
    exact h
  intro L
  induction L with
  | nil => intro pre acc _ _ q hq; cases hq
  | cons p rest ih =>
    intro pre acc hglob hacc q hq
    have hchain' := hglob ▸ hchain
    have hndp' := hglob ▸ hndp
    rw [List.pairwise_append] at hchain' hndp'
    obtain ⟨-, hchain_cons, hchain_cross⟩ := hchain'
    obtain ⟨-, hndp_cons, hndp_cross⟩ := hndp'
    have hx_pre : ∀ c ∈ pre,
        axis_value c ax + TOLERANCE < axis_value p ax :=
      fun c hc => hchain_cross c hc p (List.mem_cons_self p rest)
    have hx_rest : ∀ c ∈ rest,
        axis_value p ax + TOLERANCE < axis_value c ax :=
      (List.pairwise_cons.mp hchain_cons).1
    have htn_pre : ∀ c ∈ pre, c.test_number ≠ p.test_number :=
      fun c hc => hndp_cross c hc p (List.mem_cons_self p rest)
    have htn_rest : ∀ c ∈ rest, p.test_number ≠ c.test_number :=
      (List.pairwise_cons.mp hndp_cons).1
    have hp_glob : p ∈ glob := by
      rw [hglob]
      exact List.mem_append_right pre (List.mem_cons_self p rest)
    have hpre_glob : ∀ c ∈ pre, c ∈ glob := by
      intro c hc
      rw [hglob]
      exact List.mem_append_left _ hc
    cases acc with
    | none =>
      have hpre : pre = [] := by
        rcases hacc with ⟨h, -⟩ | ⟨b, hb, -⟩
        · exact h
        · cases hb
      subst hpre
      rw [sweepOptimal]
      rcases List.mem_cons.mp hq with hqp | hq'
      · subst hqp
        constructor
        · intro _ c hc hcq
          rw [hglob] at hc
          rcases List.mem_cons.mp (by simpa using hc) with hcp | hcr
          · exact absurd
              (show c.test_number = q.test_number by rw [hcp]) hcq
          · exact dominatesB_false_of_x ax ay c q (hx_rest c hcr)
        · intro hns
          exact absurd (List.mem_cons_self _ _) hns
      · have hglob2 : glob = [p] ++ rest := by rw [hglob]; rfl
        have hacc2 : (([p] : List (ParetoPoint α)) = [] ∧
            (some (axis_value p ay) : Option ℚ) = none) ∨
            (∃ b, (some (axis_value p ay) : Option ℚ) = some b ∧
              (∃ c ∈ [p], axis_value c ay = b) ∧
              ∀ c ∈ [p], axis_value c ay ≤ b) := by
          refine Or.inr ⟨axis_value p ay, rfl,
            ⟨p, List.mem_singleton_self p, rfl⟩, ?_⟩
          intro c hc
          rw [List.mem_singleton] at hc
          exact le_of_eq (by rw [hc])
        have hpq : p.test_number ≠ q.test_number := htn_rest q hq'
        obtain ⟨hi, hii⟩ :=
          ih [p] (some (axis_value p ay)) hglob2 hacc2 q hq'
        constructor
        · intro hmem c hc hcq
          rcases List.mem_cons.mp hmem with he | hmem'
          · exact absurd he (fun h => hpq h.symm)
          · exact hi hmem' c hc hcq
        · intro hns
          exact hii (fun hmem' => hns (List.mem_cons_of_mem _ hmem'))
    | some best =>
      rcases hacc with ⟨-, hcon⟩ | ⟨b, hb, ⟨c0, hc0pre, hc0Y⟩, hub⟩
      · cases hcon
      injection hb with hbb
      subst hbb
      rw [sweepOptimal]
      by_cases hmark : best + TOLERANCE < axis_value p ay
      · rw [if_pos hmark]
        rcases List.mem_cons.mp hq with hqp | hq'
        · subst hqp
          constructor
          · intro _ c hc hcq
            rw [hglob] at hc
            rcases List.mem_append.mp hc with hcpre | hccons
            · refine dominatesB_false_of_y ax ay c q ?_
              have h1 : axis_value c ay ≤ best := hub c hcpre
              linarith
            · rcases List.mem_cons.mp hccons with hcp | hcr
              · exact absurd
                  (show c.test_number = q.test_number by rw [hcp]) hcq
              · exact dominatesB_false_of_x ax ay c q (hx_rest c hcr)
          · intro hns
            exact absurd (List.mem_cons_self _ _) hns
        · have hglob2 : glob = (pre ++ [p]) ++ rest := by
            rw [hglob, List.append_assoc]
            rfl
          have hacc2 : ((pre ++ [p] : List (ParetoPoint α)) = [] ∧
              (some (axis_value p ay) : Option ℚ) = none) ∨
              (∃ b2, (some (axis_value p ay) : Option ℚ) = some b2 ∧
                (∃ c ∈ pre ++ [p], axis_value c ay = b2) ∧
                ∀ c ∈ pre ++ [p], axis_value c ay ≤ b2) := by
            refine Or.inr ⟨axis_value p ay, rfl,
              ⟨p, List.mem_append_right pre (List.mem_singleton_self p),
                rfl⟩, ?_⟩
            intro c hc
            rcases List.mem_append.mp hc with hcpre | hcp
            · have := hub c hcpre
              linarith
            · rw [List.mem_singleton] at hcp
              exact le_of_eq (by rw [hcp])
          have hpq : p.test_number ≠ q.test_number := htn_rest q hq'
          obtain ⟨hi, hii⟩ :=
            ih (pre ++ [p]) (some (axis_value p ay)) hglob2 hacc2 q hq'
          constructor
          · intro hmem c hc hcq
            rcases List.mem_cons.mp hmem with he | hmem'
            · exact absurd he (fun h => hpq h.symm)
            · exact hi hmem' c hc hcq
          · intro hns
            exact hii (fun hmem' => hns (List.mem_cons_of_mem _ hmem'))
      · rw [if_neg hmark]
        push_neg at hmark
        have hc0glob : c0 ∈ glob := hpre_glob c0 hc0pre
        have hc0tn : c0.test_number ≠ p.test_number := htn_pre c0 hc0pre
        have hsep0 : TOLERANCE < |axis_value p ay - axis_value c0 ay| :=
          hsepY p hp_glob c0 hc0glob (fun h => hc0tn h.symm)
        have hplow : axis_value p ay < best - TOLERANCE := by
          rw [hc0Y] at hsep0
          rcases lt_abs.mp hsep0 with h | h
          · linarith
          · linarith
        rcases List.mem_cons.mp hq with hqp | hq'
        · subst hqp
          constructor
          · intro hmem
            obtain ⟨r, hr, hrt⟩ :=
              sweep_subset ay rest (some best) q.test_number hmem
            exact absurd hrt (fun h => (htn_rest r hr) h.symm)
          · intro _
            refine ⟨c0, hc0glob, fun h => hc0tn h, ?_⟩
            refine dominatesB_true_of ax ay c0 q ?_ ?_ (Or.inl ?_)
            · have := hx_pre c0 hc0pre
              linarith
            · rw [hc0Y]
              linarith
            · have := hx_pre c0 hc0pre
              linarith
        · have hglob2 : glob = (pre ++ [p]) ++ rest := by
            rw [hglob, List.append_assoc]
            rfl
          have hacc2 : ((pre ++ [p] : List (ParetoPoint α)) = [] ∧
              (some best : Option ℚ) = none) ∨
              (∃ b2, (some best : Option ℚ) = some b2 ∧
                (∃ c ∈ pre ++ [p], axis_value c ay = b2) ∧
                ∀ c ∈ pre ++ [p], axis_value c ay ≤ b2) := by
            refine Or.inr ⟨best, rfl,
              ⟨c0, List.mem_append_left _ hc0pre, hc0Y⟩, ?_⟩
            intro c hc
            rcases List.mem_append.mp hc with hcpre | hcp
            · exact hub c hcpre
            · rw [List.mem_singleton] at hcp
              rw [hcp]
              linarith
          exact ih (pre ++ [p]) (some best) hglob2 hacc2 q hq'

/-- Introduction form of `updatedPoints` membership. -/
theorem updatedPoints_mem_of {α : Type} [DecidableEq α] (ax ay : String)
    (raw : List (ParetoPoint α)) (c : ParetoPoint α) (hc : c ∈ raw) :
    ({ c with
      is_optimal :=
        (sweepOptimal ay (List.insertionSort (sortKeyLE ax ay) raw)
          none).contains c.test_number,
      dominated_by :=
        (dlookup (compute_dominance ax ay
          (List.insertionSort (sortKeyLE ax ay) raw))
          c.test_number).getD none } : ParetoPoint α) ∈
      updatedPoints ax ay raw := by
  unfold updatedPoints
  exact List.mem_map_of_mem _ hc

/-! ## Claim C2 -/

/-- **C2 (amended).** For every non-empty valid result set with
pairwise-distinct test numbers whose points are pairwise separated by
more than the tolerance on both chosen axes, `ParetoFrontier.compute`
succeeds and its flags are sound: no point marked `is_optimal` is
dominated (tolerance-aware rule) by any other point of the set, and
every point not marked optimal records a `dominated_by` test number
belonging to a point of the set that actually dominates it.  (Without
the separation hypothesis the second half fails: see the
counterexample.) -/
theorem pareto_flags_sound {α : Type} [DecidableEq α]
    (results : List (TestResult α)) (eid ax ay : String)
    (hne : results ≠ [])
    (hvalid : ∀ r ∈ results, r.Valid)
    (hx : ax = "cost" ∨ ax = "latency")
    (hy : ay = "quality" ∨ ay = "utility")
    (hnd : (results.map (fun r => r.config.test_number)).Nodup)
    (hsep : ∀ r ∈ results, ∀ s ∈ results,
      r.config.test_number ≠ s.config.test_number →
      TOLERANCE <
        |axis_value (pointOf r) ax - axis_value (pointOf s) ax| ∧
      TOLERANCE <
        |axis_value (pointOf r) ay - axis_value (pointOf s) ay|) :
    ∃ f : ParetoFrontier α,
      ParetoFrontier.compute results eid ax ay = .ok f ∧
      (∀ p ∈ f.points, p.is_optimal = true →
        ∀ c ∈ f.points, c.test_number ≠ p.test_number →
          dominatesB ax ay c p = false) ∧
      (∀ p ∈ f.points, p.is_optimal = false →
        ∃ d, p.dominated_by = some d ∧
          ∃ c ∈ f.points, c.test_number = d ∧
            c.test_number ≠ p.test_number ∧
            dominatesB ax ay c p = true) := by
  have hperm : List.Perm
      (List.insertionSort (sortKeyLE ax ay) (results.map pointOf))
      (results.map pointOf) :=
    List.perm_insertionSort _ _
  have hmemS : ∀ p : ParetoPoint α,
      p ∈ List.insertionSort (sortKeyLE ax ay) (results.map pointOf) ↔
      p ∈ results.map pointOf := fun p => hperm.mem_iff
  have hndraw : ((results.map pointOf).map
      ParetoPoint.test_number).Nodup := by
    rw [List.map_map]
    exact hnd
  have hnds : ((List.insertionSort (sortKeyLE ax ay)
      (results.map pointOf)).map ParetoPoint.test_number).Nodup :=
    ((hperm.map ParetoPoint.test_number).symm).nodup hndraw
  have hsepX_s : ∀ p ∈ List.insertionSort (sortKeyLE ax ay)
        (results.map pointOf),
      ∀ q ∈ List.insertionSort (sortKeyLE ax ay) (results.map pointOf),
      p.test_number ≠ q.test_number →
      TOLERANCE < |axis_value p ax - axis_value q ax| := by
    intro p hp q hq hne'
    obtain ⟨r, hr, hrp⟩ := List.mem_map.mp ((hmemS p).mp hp)
    obtain ⟨s, hs, hsq⟩ := List.mem_map.mp ((hmemS q).mp hq)
    subst hrp
    subst hsq
    exact (hsep r hr s hs hne').1
  have hsepY_s : ∀ p ∈ List.insertionSort (sortKeyLE ax ay)
        (results.map pointOf),
      ∀ q ∈ List.insertionSort (sortKeyLE ax ay) (results.map pointOf),
      p.test_number ≠ q.test_number →
      TOLERANCE < |axis_value p ay - axis_value q ay| := by
    intro p hp q hq hne'
    obtain ⟨r, hr, hrp⟩ := List.mem_map.mp ((hmemS p).mp hp)
    obtain ⟨s, hs, hsq⟩ := List.mem_map.mp ((hmemS q).mp hq)
    subst hrp
    subst hsq
    exact (hsep r hr s hs hne').2
  have hsorted : List.Pairwise (sortKeyLE ax ay)
      (List.insertionSort (sortKeyLE ax ay) (results.map pointOf)) :=
    List.sorted_insertionSort _ _
  have hTNp : (List.insertionSort (sortKeyLE ax ay)
      (results.map pointOf)).Pairwise
      (fun a b => a.test_number ≠ b.test_number) := by
    have h := hnds
    rw [List.Nodup, List.pairwise_map] at h
    exact h
  have hsepP : (List.insertionSort (sortKeyLE ax ay)
      (results.map pointOf)).Pairwise
      (fun p q => p.test_number ≠ q.test_number →
        TOLERANCE < |axis_value p ax - axis_value q ax|) :=
    List.pairwise_of_forall_mem_list
      (fun p hp q hq => hsepX_s p hp q hq)
  have hchain : (List.insertionSort (sortKeyLE ax ay)
      (results.map pointOf)).Pairwise
      (fun p q => axis_value p ax + TOLERANCE < axis_value q ax) := by
    have hco := (hsorted.and hTNp).and hsepP
    refine hco.imp ?_
    intro p q h
    obtain ⟨⟨hle, hTN⟩, hsp⟩ := h
    have hs' := hsp hTN
    rcases hle with hlt | ⟨heq, -⟩
    · rw [abs_of_neg (by linarith :
        axis_value p ax - axis_value q ax < 0)] at hs'
      linarith
    · rw [heq, sub_self, abs_zero] at hs'
      exact absurd hs' (by norm_num [TOLERANCE])
  have hsw := sweep_spec ax ay
    (List.insertionSort (sortKeyLE ax ay) (results.map pointOf))
    hchain hsepY_s hnds
    (List.insertionSort (sortKeyLE ax ay) (results.map pointOf))
    [] none rfl (Or.inl ⟨rfl, rfl⟩)
  refine ⟨_, compute_ok results eid ax ay hne hvalid hx hy, ?_, ?_⟩
  · intro p hp hpopt c hc hccp
    obtain ⟨qp, hqp, hpe⟩ := updatedPoints_mem hp
    obtain ⟨qc, hqc, hce⟩ := updatedPoints_mem hc
    subst hpe
    subst hce
    have hcont : (sweepOptimal ay
        (List.insertionSort (sortKeyLE ax ay) (results.map pointOf))
        none).contains qp.test_number = true := hpopt
    have hmem : qp.test_number ∈ sweepOptimal ay
        (List.insertionSort (sortKeyLE ax ay) (results.map pointOf))
        none := (contains_iff_mem _ _).mp hcont
    have hq_sorted : qp ∈ List.insertionSort (sortKeyLE ax ay)
        (results.map pointOf) := (hmemS qp).mpr hqp
    have hc_sorted : qc ∈ List.insertionSort (sortKeyLE ax ay)
        (results.map pointOf) := (hmemS qc).mpr hqc
    have hTN : qc.test_number ≠ qp.test_number := hccp
    exact (hsw qp hq_sorted).1 hmem qc hc_sorted hTN
  · intro p hp hpopt
    obtain ⟨qp, hqp, hpe⟩ := updatedPoints_mem hp
    subst hpe
    have hcont : (sweepOptimal ay
        (List.insertionSort (sortKeyLE ax ay) (results.map pointOf))
        none).contains qp.test_number = false := hpopt
    have hnmem : qp.test_number ∉ sweepOptimal ay
        (List.insertionSort (sortKeyLE ax ay) (results.map pointOf))
        none := by
      intro hm
      have h := (contains_iff_mem (sweepOptimal ay
        (List.insertionSort (sortKeyLE ax ay) (results.map pointOf))
        none) qp.test_number).mpr hm
      rw [hcont] at h
      exact absurd h (by decide)
    have hq_sorted : qp ∈ List.insertionSort (sortKeyLE ax ay)
        (results.map pointOf) := (hmemS qp).mpr hqp
    obtain ⟨c, hc_sorted, hcTN, hcdom⟩ := (hsw qp hq_sorted).2 hnmem
    have hfind : ∃ c₁, (List.insertionSort (sortKeyLE ax ay)
        (results.map pointOf)).find?
        (fun x => (x.test_number != qp.test_number) &&
          dominatesB ax ay x qp) = some c₁ := by
      cases hf : (List.insertionSort (sortKeyLE ax ay)
          (results.map pointOf)).find?
          (fun x => (x.test_number != qp.test_number) &&
            dominatesB ax ay x qp) with
      | some c₁ => exact ⟨c₁, rfl⟩
      | none =>
        exfalso
        apply List.find?_eq_none.mp hf c hc_sorted
        rw [Bool.and_eq_true]
        exact ⟨bne_iff_ne.mpr hcTN, hcdom⟩
    obtain ⟨c₁, hf⟩ := hfind
    have hc₁pred := List.find?_some hf
    rw [Bool.and_eq_true] at hc₁pred
    obtain ⟨hc₁ne, hc₁dom⟩ := hc₁pred
    have hc₁ne' : c₁.test_number ≠ qp.test_number := bne_iff_ne.mp hc₁ne
    have hc₁mem : c₁ ∈ List.insertionSort (sortKeyLE ax ay)
        (results.map pointOf) := List.mem_of_find?_eq_some hf
    have hdl : dlookup (compute_dominance ax ay
        (List.insertionSort (sortKeyLE ax ay) (results.map pointOf)))
        qp.test_number = some (some c₁.test_number) := by
      unfold compute_dominance
      exact dom_fold_lookup
        (fun r => (List.insertionSort (sortKeyLE ax ay)
          (results.map pointOf)).find?
          (fun x => (x.test_number != r.test_number) &&
            dominatesB ax ay x r))
        (List.insertionSort (sortKeyLE ax ay) (results.map pointOf))
        _ qp c₁ hq_sorted hnds hf
    refine ⟨c₁.test_number, ?_, ?_⟩
    · exact Eq.trans
        (congrArg (fun o => o.getD (none : Option ℕ)) hdl) rfl
    · have hc₁raw : c₁ ∈ results.map pointOf := (hmemS c₁).mp hc₁mem
      exact ⟨_, updatedPoints_mem_of ax ay (results.map pointOf) c₁
        hc₁raw, rfl, hc₁ne', hc₁dom⟩

/-- The tied pair of results is valid (constructor bounds). -/
theorem c2_results_valid : ∀ r ∈ [c2resA, c2resB], TestResult.Valid r := by
  intro r hr
  rcases List.mem_cons.mp hr with rfl | hr
  · exact ⟨by norm_num [c2resA], by norm_num [c2resA],
      by norm_num [c2resA], by norm_num [c2resA, qsOf],
      by norm_num [c2resA, qsOf]⟩
  · rcases List.mem_cons.mp hr with rfl | hr
    · exact ⟨by norm_num [c2resB], by norm_num [c2resB],
        by norm_num [c2resB], by norm_num [c2resB, qsOf],
        by norm_num [c2resB, qsOf]⟩
    · cases hr

/-- **C2 (counterexample).** With two identical measurements under
distinct test numbers, `compute` returns a frontier in which the
second point is not marked optimal yet records no dominator
(`dominated_by = none`), refuting the claim that every non-optimal
point carries a recorded dominated_by test number. -/
theorem pareto_nonoptimal_without_dominator_counterexample :
    ∃ f : ParetoFrontier ℚ,
      ParetoFrontier.compute [c2resA, c2resB] "exp" "cost" "quality" =
        .ok f ∧
      f.points.map
        (fun p => (p.test_number, p.is_optimal, p.dominated_by)) =
        [(1, true, none), (2, false, none)] := by
  refine ⟨_, compute_ok [c2resA, c2resB] "exp" "cost" "quality"
    (by decide) c2_results_valid (Or.inl rfl) (Or.inl rfl), ?_⟩
  have hqc : (("quality" : String) = "cost") = False := eq_false (by decide)
  have hql : (("quality" : String) = "latency") = False :=
    eq_false (by decide)
  have hcc : (("cost" : String) = "cost") = True := eq_true rfl
  have hne12 : ((1 : ℕ) != 2) = true := by decide
  have hne21 : ((2 : ℕ) != 1) = true := by decide
  have heq12 : ((1 : ℕ) == 2) = false := by decide
  have heq21 : ((2 : ℕ) == 1) = false := by decide
  norm_num [hqc, hql, hcc, hne12, hne21, heq12, heq21,
    updatedPoints, sweepOptimal, compute_dominance,
    dominatesB, axis_value, sortKeyLE, TOLERANCE, ParetoPoint.test_number,
    List.insertionSort, List.orderedInsert, dset, dlookup, pointOf,
    c2resA, c2resB, qsOf, List.foldl, List.map, List.find?, List.filter,
    List.contains, List.elem, Option.getD, ne_eq, decide_eq_true_eq]

/-- Witness for C2 (amended): two valid results separated by 1 in cost
and 4/5 in quality, both far beyond the 1e-9 tolerance. -/
theorem pareto_flags_sound_witness :
    ∃ f : ParetoFrontier ℚ,
      ParetoFrontier.compute [c10res9, c10res8] "exp" "cost" "quality" =
        .ok f ∧
      (∀ p ∈ f.points, p.is_optimal = true →
        ∀ c ∈ f.points, c.test_number ≠ p.test_number →
          dominatesB "cost" "quality" c p = false) ∧
      (∀ p ∈ f.points, p.is_optimal = false →
        ∃ d, p.dominated_by = some d ∧
          ∃ c ∈ f.points, c.test_number = d ∧
            c.test_number ≠ p.test_number ∧
            dominatesB "cost" "quality" c p = true) :=
  pareto_flags_sound [c10res9, c10res8] "exp" "cost" "quality"
    (by decide) c10_results_valid (Or.inl rfl) (Or.inl rfl)
    (by decide)
    (by
      intro r hr s hs hrs
      have hcc : (("cost" : String) = "cost") = True := eq_true rfl
      have hqc : (("quality" : String) = "cost") = False :=
        eq_false (by decide)
      have hql : (("quality" : String) = "latency") = False :=
        eq_false (by decide)
      rcases List.mem_cons.mp hr with rfl | hr'
      · rcases List.mem_cons.mp hs with rfl | hs'
        · exact absurd rfl hrs
        · rcases List.mem_cons.mp hs' with rfl | hs''
          · refine ⟨by norm_num [hcc, TOLERANCE, axis_value, pointOf,
              c10res9, c10res8, qsOf], ?_⟩
            have hv : axis_value (pointOf c10res9) "quality" -
                axis_value (pointOf c10res8) "quality" = 4/5 := by
              norm_num [hqc, hql, axis_value, pointOf, c10res9, c10res8,
                qsOf]
            rw [hv, abs_of_pos (by norm_num : (0:ℚ) < 4/5)]
            norm_num [TOLERANCE]
          · cases hs''
      · rcases List.mem_cons.mp hr' with rfl | hr''
        · rcases List.mem_cons.mp hs with rfl | hs'
          · refine ⟨by norm_num [hcc, TOLERANCE, axis_value, pointOf,
              c10res9, c10res8, qsOf], ?_⟩
            have hv : axis_value (pointOf c10res8) "quality" -
                axis_value (pointOf c10res9) "quality" = -(4/5) := by
              norm_num [hqc, hql, axis_value, pointOf, c10res9, c10res8,
                qsOf]
            rw [hv, abs_neg, abs_of_pos (by norm_num : (0:ℚ) < 4/5)]
            norm_num [TOLERANCE]
          · rcases List.mem_cons.mp hs' with rfl | hs''
            · exact absurd rfl hrs
            · cases hs''
        · cases hr'')

/-! ## Claim C3 -/

/-- **C3.** Recording 8 results with pairwise-distinct test numbers in
any two orders (one a permutation of the other) into the same RUNNING
run with 8 test configurations succeeds in both orders and yields
identical utility values per test number, because each insertion
re-normalizes cost and latency over all results recorded so far. -/
theorem record_result_order_invariant {α : Type} [DecidableEq α]
    (run : ExperimentRun α) (l₁ l₂ : List (TestResult α))
    (hstatus : run.status = .RUNNING) (hempty : run.results = [])
    (hlen : l₁.length = 8) (hconfigs : run.test_configurations.length = 8)
    (hnodup : (l₁.map fun r => r.test_number).Nodup) (hperm : l₁.Perm l₂) :
    ∃ run₁ run₂, recordAll run l₁ = .ok run₁ ∧ recordAll run l₂ = .ok run₂ ∧
      run₁.results = run₂.results ∧
      ∀ r₁ ∈ run₁.results, ∀ r₂ ∈ run₂.results,
        r₁.test_number = r₂.test_number → r₁.utility = r₂.utility := by
  have hl₁ne : l₁ ≠ [] := by intro h; rw [h] at hlen; cases hlen
  have hl₂ne : l₂ ≠ [] := fun h => hl₁ne (List.Perm.eq_nil (h ▸ hperm))
  have hnodup₂ : (l₂.map fun r => r.test_number).Nodup :=
    ((hperm.map fun r => r.test_number).nodup_iff).mp hnodup
  obtain ⟨run₁, hf₁, -, -, -, -, hres₁⟩ := recordAll_ok l₁ run hstatus
    (by rw [hempty, List.nil_append]; exact hnodup)
    (by rw [hempty, hconfigs, hlen]; simp)
  obtain ⟨run₂, hf₂, -, -, -, -, hres₂⟩ := recordAll_ok l₂ run hstatus
    (by rw [hempty, List.nil_append]; exact hnodup₂)
    (by rw [hempty, hconfigs, ← hperm.length_eq, hlen]; simp)
  have hr₁ := hres₁ hl₁ne
  have hr₂ := hres₂ hl₂ne
  have heq : run₁.results = run₂.results := by
    rw [hr₁, hr₂, hempty, List.nil_append, List.nil_append]
    exact recalc_congr run run rfl l₁ l₂ (hperm.map _) hnodup
  refine ⟨run₁, run₂, hf₁, hf₂, heq, ?_⟩
  have hnd₁ : (run₁.results.map fun r => r.test_number).Nodup := by
    rw [hr₁, hempty, List.nil_append, recalc_map_tn]
    exact (((sortByTestNumber_perm l₁).map fun r => r.test_number).nodup_iff).mpr
      hnodup
  intro r₁ h₁ r₂ h₂ htn
  rw [← heq] at h₂
  have hxy := List.inj_on_of_nodup_map hnd₁ h₁ h₂ htn
  rw [hxy]

/-- Witness for C3 at a concrete input: eight unit results recorded in
test-number order and with the first two swapped give runs with the
same results. -/
theorem record_result_order_invariant_witness :
    ∃ run₁ run₂,
      recordAll runningRun c3L1 = .ok run₁ ∧
      recordAll runningRun c3L2 = .ok run₂ ∧
      run₁.results = run₂.results ∧
      ∀ r₁ ∈ run₁.results, ∀ r₂ ∈ run₂.results,
        r₁.test_number = r₂.test_number → r₁.utility = r₂.utility :=
  record_result_order_invariant runningRun c3L1 c3L2 rfl rfl rfl rfl
    (by decide)
    (by unfold c3L1 c3L2; exact List.Perm.swap (c3res 2) (c3res 1) _)

/-! ## Claim C5 -/

theorem foldl_max_map_q {α : Type} :
    ∀ (t : List (TestResult α)) (v : ℚ),
      t.foldl (fun m x => max m x.quality_score.overall_score) v =
        (t.map fun x => x.quality_score.overall_score).foldl max v := by
  intro t
  induction t with
  | nil => intro v; rfl
  | cons a t ih => intro v; simp only [List.foldl, List.map_cons]; exact ih _

theorem foldl_max_attained :
    ∀ (t : List ℚ) (v : ℚ), t.foldl max v = v ∨ t.foldl max v ∈ t := by
  intro t
  induction t with
  | nil => intro v; exact Or.inl rfl
  | cons a t ih =>
    intro v
    rcases ih (max v a) with h | h
    · rcases max_choice v a with hv | ha
      · exact Or.inl (by rw [List.foldl, h, hv])
      · exact Or.inr (by rw [List.foldl, h, ha]; exact List.mem_cons_self _ _)
    · exact Or.inr (List.mem_cons.mpr (Or.inr h))

/-- **C5 (amended).** Every successful `record_result` call stores, as
the quality improvement, `(best_quality − baseline_quality) /
baseline_quality × 100` where `best_quality` is the **maximum overall
quality among all recorded results** (not the quality of the
best-utility result, as the claim says), and stores `None` whenever the
baseline quality is missing or ≤ 0. -/
theorem record_result_improvement_spec {α : Type} [DecidableEq α]
    (run : ExperimentRun α) (result : TestResult α) (run' : ExperimentRun α)
    (hok : run.record_result result = .ok run') :
    run'.results ≠ [] ∧
    (run'.baseline_quality = none → run'.quality_improvement_pct = none) ∧
    (∀ bq, run'.baseline_quality = some bq → bq ≤ 0 →
      run'.quality_improvement_pct = none) ∧
    (∀ bq, run'.baseline_quality = some bq → 0 < bq →
      ∃ best : ℚ,
        (∀ x ∈ run'.results, x.quality_score.overall_score ≤ best) ∧
        (∃ x ∈ run'.results, x.quality_score.overall_score = best) ∧
        run'.quality_improvement_pct = some ((best - bq) / bq * 100)) := by
  obtain ⟨-, -, -, hres, -, -, -, hqip⟩ := record_result_ok hok
  have hne : run'.results ≠ [] := by
    intro hnil
    have hl := recalc_length run (run.results ++ [result])
    rw [← hres, hnil, List.length_append] at hl
    simp at hl
  refine ⟨hne, ?_, ?_, ?_⟩
  · intro hbq
    rw [hqip, hbq]
    rfl
  · intro bq hbq hle
    rw [hqip, hbq]
    simp only [calculate_improvement]
    rw [if_pos hle]
  · intro bq hbq hpos
    cases hres' : run'.results with
    | nil => exact absurd hres' hne
    | cons r rest =>
      refine ⟨rest.foldl (fun m x => max m x.quality_score.overall_score)
        r.quality_score.overall_score, ?_, ?_, ?_⟩
      · intro x hx
        rw [foldl_max_map_q]
        rcases List.mem_cons.mp hx with rfl | hx'
        · exact init_le_foldl_max _ _
        · exact le_foldl_max_mem (List.mem_map.mpr ⟨x, hx', rfl⟩)
      · rw [foldl_max_map_q]
        rcases foldl_max_attained
            (rest.map fun x => x.quality_score.overall_score)
            r.quality_score.overall_score with heq | hmem
        · exact ⟨r, List.mem_cons_self _ _, heq.symm⟩
        · obtain ⟨x, hx, hfx⟩ := List.mem_map.mp hmem
          exact ⟨x, List.mem_cons.mpr (Or.inr hx), hfx⟩
      · rw [hqip, hbq, hres']
        simp only [calculate_improvement]
        rw [if_neg (not_le.mpr hpos)]

/-- **C5 (counterexample).** After recording three results where the
best-quality result (test 2, quality 9/10) is not the best-utility
result (test 3, utility 17/20 after normalization), the stored
improvement is 80% — computed from the maximum quality — while the
claimed formula (quality of the best-utility result) yields 70%. -/
theorem record_result_improvement_counterexample :
    ∃ run₃ : ExperimentRun ℚ,
      recordAll runningRun [c5res1, c5res2, c5res3] = .ok run₃ ∧
      run₃.quality_improvement_pct = some 80 ∧
      claimImprovementBestUtility run₃.results run₃.baseline_quality =
        some 70 := by
  norm_num [recordAll, ExperimentRun.record_result,
    ExperimentRun.recalculate_utilities, sortByTestNumber,
    List.insertionSort, List.orderedInsert, tnLE, minMaxNormalize,
    TestResult.with_utility, UtilityFunction.compute, calculate_improvement,
    runningRun, pendingRun, baseExpConfig, eightConfigs, simpleConfig,
    c5res1, c5res2, c5res3, qsOf, claimImprovementBestUtility,
    List.foldl, List.map, List.zip, List.zipWith, List.isEmpty, List.any,
    List.find?, List.length, Option.isNone, Option.getD, ne_eq,
    Bind.bind, Except.bind, Pure.pure, Except.pure]

/-- Witness for C5 (amended) at a concrete input: a single recorded
result is its own best quality and baseline, giving improvement 0%. -/
theorem record_result_improvement_spec_witness :
    ∃ best : ℚ,
      (∀ x ∈ c5run1.results, x.quality_score.overall_score ≤ best) ∧
      (∃ x ∈ c5run1.results, x.quality_score.overall_score = best) ∧
      c5run1.quality_improvement_pct = some ((best - 1/2) / (1/2) * 100) := by
  have hok : runningRun.record_result c5res1 = .ok c5run1 := by
    norm_num [ExperimentRun.record_result,
      ExperimentRun.recalculate_utilities, sortByTestNumber,
      List.insertionSort, List.orderedInsert, tnLE, minMaxNormalize,
      TestResult.with_utility, UtilityFunction.compute, calculate_improvement,
      runningRun, pendingRun, baseExpConfig, eightConfigs, simpleConfig,
      c5res1, c5res1', c5run1, qsOf,
      List.foldl, List.map, List.zip, List.zipWith, List.isEmpty, List.any,
      List.find?, List.length, Option.isNone, Option.getD, ne_eq]
  exact (record_result_improvement_spec runningRun c5res1 c5run1 hok).2.2.2
    (1/2) rfl (by norm_num)

/-! ## Claim C6 -/

/-- **C6.** For every `ExperimentRun`: `mark_running` succeeds iff the
status is PENDING or FAILED; `mark_failed` succeeds iff the status is
RUNNING and the error message is non-empty after trimming;
`mark_completed` succeeds iff the status is RUNNING and the results
count equals the test-configurations count; and each returns a new
snapshot carrying the transition (the receiver is unchanged — all
transition functions of the embedding are pure, mirroring
`model_copy`). -/
theorem run_lifecycle_guards {α : Type} [DecidableEq α]
    (run : ExperimentRun α) (sa : Option ℕ) (now : ℕ) (err : String)
    (ca : Option ℕ) (now' : ℕ) :
    ((∃ r, run.mark_running sa now = .ok r) ↔
      (run.status = .PENDING ∨ run.status = .FAILED)) ∧
    (∀ r, run.mark_running sa now = .ok r → r.status = .RUNNING) ∧
    ((∃ r, run.mark_failed err = .ok r) ↔
      (run.status = .RUNNING ∧ pyStrip err ≠ "")) ∧
    (∀ r, run.mark_failed err = .ok r →
      r.status = .FAILED ∧ r.error = some (pyStrip err)) ∧
    ((∃ r, run.mark_completed ca now' = .ok r) ↔
      (run.status = .RUNNING ∧
        run.results.length = run.test_configurations.length)) ∧
    (∀ r, run.mark_completed ca now' = .ok r → r.status = .COMPLETED) := by
  unfold ExperimentRun.mark_running ExperimentRun.mark_failed
    ExperimentRun.mark_completed
  refine ⟨?_, ?_, ?_, ?_, ?_, ?_⟩
  · by_cases h : run.status = .PENDING ∨ run.status = .FAILED
    · rw [if_neg (not_not_intro h)]
      exact ⟨fun _ => h, fun _ => ⟨_, rfl⟩⟩
    · rw [if_pos h]
      exact ⟨fun ⟨r, hr⟩ => (by cases hr), fun hc => absurd hc h⟩
  · intro r hr
    by_cases h : run.status = .PENDING ∨ run.status = .FAILED
    · rw [if_neg (not_not_intro h)] at hr
      cases hr
      rfl
    · rw [if_pos h] at hr
      cases hr
  · by_cases h1 : run.status = .RUNNING
    · rw [if_neg (not_not_intro h1)]
      by_cases h2 : pyStrip err = ""
      · rw [if_pos h2]
        exact ⟨fun ⟨r, hr⟩ => (by cases hr), fun hc => absurd h2 hc.2⟩
      · rw [if_neg h2]
        exact ⟨fun _ => ⟨h1, h2⟩, fun _ => ⟨_, rfl⟩⟩
    · rw [if_pos h1]
      exact ⟨fun ⟨r, hr⟩ => (by cases hr), fun hc => absurd hc.1 h1⟩
  · intro r hr
    by_cases h1 : run.status = .RUNNING
    · rw [if_neg (not_not_intro h1)] at hr
      by_cases h2 : pyStrip err = ""
      · rw [if_pos h2] at hr
        cases hr
      · rw [if_neg h2] at hr
        cases hr
        exact ⟨rfl, rfl⟩
    · rw [if_pos h1] at hr
      cases hr
  · by_cases h1 : run.status = .RUNNING
    · rw [if_neg (not_not_intro h1)]
      by_cases h2 : run.results.length = run.test_configurations.length
      · rw [if_neg (not_not_intro h2)]
        exact ⟨fun _ => ⟨h1, h2⟩, fun _ => ⟨_, rfl⟩⟩
      · rw [if_pos h2]
        exact ⟨fun ⟨r, hr⟩ => (by cases hr), fun hc => absurd hc.2 h2⟩
    · rw [if_pos h1]
      exact ⟨fun ⟨r, hr⟩ => (by cases hr), fun hc => absurd hc.1 h1⟩
  · intro r hr
    by_cases h1 : run.status = .RUNNING
    · rw [if_neg (not_not_intro h1)] at hr
      by_cases h2 : run.results.length = run.test_configurations.length
      · rw [if_neg (not_not_intro h2)] at hr
        cases hr
        rfl
      · rw [if_pos h2] at hr
        cases hr
    · rw [if_pos h1] at hr
      cases hr

/-- Witness for C6 at concrete runs: a PENDING run may start and a
RUNNING run may fail with a non-blank message. -/
theorem run_lifecycle_guards_witness :
    (∃ r, pendingRun.mark_running none 0 = .ok r) ∧
    (∃ r, runningRun.mark_failed "boom" = .ok r) :=
  ⟨(run_lifecycle_guards pendingRun none 0 "boom" none 0).1.mpr (Or.inl rfl),
   (run_lifecycle_guards runningRun none 0 "boom" none 0).2.2.1.mpr
     ⟨rfl, by decide⟩⟩

/-! ## Claim C7 -/

/-- **C7.** Whenever `QualityScore` construction succeeds, the stored
`overall_score` is the arithmetic mean of the stored dimension scores —
for *every* `overall_score` value passed in, i.e. any passed-in value is
overwritten by the recomputed mean — and construction with an empty
dimension map fails. -/
theorem quality_score_overall_is_mean :
    ∀ (dims : List (String × DimensionScore)) (em : String) (ov : ℚ),
      (∀ q : QualityScore, mkQualityScore? dims em ov = .ok q →
        q.overall_score =
          (q.dimension_scores.map fun p => p.2.score).sum /
            (q.dimension_scores.length : ℚ)) ∧
      (dims = [] →
        mkQualityScore? dims em ov =
          .error "At least one dimension score must be provided.") := by
  intro dims em ov
  constructor
  · intro q hok
    unfold mkQualityScore? at hok
    by_cases hempty : dims.isEmpty
    · simp [hempty] at hok
    · simp only [hempty, Bool.false_eq_true, if_false] at hok
      cases hfold : dims.foldlM normalizeDimensionStep
          ([] : List (String × DimensionScore)) with
      | error e => rw [hfold] at hok; exact absurd hok (by simp)
      | ok normalized =>
        rw [hfold] at hok
        by_cases hov : ov < 0 ∨ 1 < ov
        · simp [hov] at hok
        · simp only [hov, if_false] at hok
          by_cases hem : pyStrip em = ""
          · simp [hem] at hok
          · simp only [hem, if_false, Except.ok.injEq] at hok
            subst hok
            simp only [fmean, List.sum_eq_foldl, List.length_map]
  · intro h
    subst h
    rfl

/-- Witness for C7: a two-dimension score built with a junk passed-in
`overall_score` of `1` comes back with the recomputed mean, and the
empty construction fails. -/
theorem quality_score_overall_is_mean_witness :
    (∃ q : QualityScore,
        mkQualityScore? [("a", { score := 1/2 }), ("b", { score := 1 })] "m" 1 =
          .ok q ∧
        q.overall_score =
          (q.dimension_scores.map fun p => p.2.score).sum /
            (q.dimension_scores.length : ℚ)) ∧
    mkQualityScore? [] "m" 0 =
      .error "At least one dimension score must be provided." := by
  constructor
  · have hok : mkQualityScore? [("a", { score := 1/2 }), ("b", { score := 1 })] "m" 1 =
        .ok { dimension_scores := [("a", { score := 1/2 }), ("b", { score := 1 })],
              overall_score := 3/4,
              evaluator_model := "m" } := by
      have ha : pyStrip "a" = "a" := by decide
      have hb : pyStrip "b" = "b" := by decide
      have hm : pyStrip "m" = "m" := by decide
      have ea : ("a" = "") = False := eq_false (by decide)
      have eb : ("b" = "") = False := eq_false (by decide)
      have em : ("m" = "") = False := eq_false (by decide)
      have eab : (("a":String) = "b") = False := eq_false (by decide)
      have eba : (("b":String) == "a") = false := by decide
      simp only [mkQualityScore?, normalizeDimensionStep, List.foldlM, dset,
        fmean, ha, hb, hm, ea, eb, em, eab, eba, if_false, Bind.bind,
        Except.bind, Pure.pure, Except.pure, List.contains, List.elem,
        List.map, List.foldl, List.length, List.cons_append, List.nil_append,
        Bool.false_eq_true]
      norm_num
    exact ⟨_, hok, (quality_score_overall_is_mean
      [("a", { score := 1/2 }), ("b", { score := 1 })] "m" 1).1 _ hok⟩
  · exact (quality_score_overall_is_mean [] "m" 0).2 rfl

/-! ## Claim C4 -/

/-- **C4.** The fixed 8×7 `L8_ARRAY` is pairwise orthogonal: for every
two distinct columns, each of the four level combinations (1,1), (1,2),
(2,1), (2,2) occurs in exactly 2 of the 8 rows; and `generate_l8_array n`
returns exactly the first `n` columns of the array for every
`4 ≤ n ≤ 7` and errors for every `n < 4` or `n > 7`. -/
theorem l8_array_orthogonal_and_truncated :
    (∀ c1 c2 : Fin 7, c1 ≠ c2 → ∀ a b : Fin 2,
        levelPairCount c1.val c2.val (a.val + 1) (b.val + 1) = 2) ∧
    (∀ n : ℕ, 4 ≤ n → n ≤ 7 →
        generate_l8_array n = .ok (L8_ARRAY.map (fun row => row.take n))) ∧
    (∀ n : ℕ, n < 4 ∨ 7 < n →
        generate_l8_array n =
          .error "Taguchi L8 array requires between 4 and 7 variables.") := by
  refine ⟨by decide, ?_, ?_⟩
  · intro n h4 h7
    have : ¬ (n < 4 ∨ n > 7) := by omega
    simp only [generate_l8_array, if_neg this]
  · intro n h
    have : n < 4 ∨ n > 7 := by omega
    simp only [generate_l8_array, if_pos this]

/-- Witness for C4 at concrete inputs: columns 0 and 1, levels (1,1),
and the boundary counts `n = 4` (accepted) and `n = 3` (rejected). -/
theorem l8_array_orthogonal_and_truncated_witness :
    levelPairCount 0 1 1 1 = 2 ∧
    generate_l8_array 4 = .ok (L8_ARRAY.map (fun row => row.take 4)) ∧
    generate_l8_array 3 =
      .error "Taguchi L8 array requires between 4 and 7 variables." :=
  ⟨l8_array_orthogonal_and_truncated.1 0 1 (by decide) 0 0,
   l8_array_orthogonal_and_truncated.2.1 4 (by decide) (by decide),
   l8_array_orthogonal_and_truncated.2.2 3 (Or.inl (by decide))⟩

end TesseractFlow
